import Mathlib

/-!
Verification of the bookmark-garden classification logic.

This file gives a shallow embedding, in Lean, of the classification store,
the verification-status computation, the tag find-or-create logic, the
bookmark approval/rejection workflow and the public gallery filtering of
the bookmark-garden web application, together with theorems settling the
behavioural claims made about those components.
-/

namespace BG

/-- A classification document: a named node of the 3-level tag taxonomy.
Mirrors `IClassification` (`$id`, `name`, `level`, `parentIds`). -/
structure Classification where
  id : String
  name : String
  level : Nat
  parentIds : List String
deriving Repr, DecidableEq

/-- The classification store cache: the taxonomy documents, in insertion
order (the `Map` of the pinia store, keyed by `$id`). -/
abbrev Store := List Classification

/-- `getClassification`: look a classification up by its ID. -/
def getClassification (s : Store) (id : String) : Option Classification :=
  s.find? (fun c => c.id == id)

/-- `getParents`: the parent classifications of `childId`, i.e. the entries
of its `parentIds` that resolve in the cache, in order. -/
def getParents (s : Store) (childId : String) : List Classification :=
  match getClassification s childId with
  | none => []
  | some child => child.parentIds.filterMap (fun pid => getClassification s pid)

/-- `findClassificationByNameAndLevel`: the first classification with
exactly the given (case-sensitive) name and the given level. -/
def findClassificationByNameAndLevel (s : Store) (name : String) (level : Nat) :
    Option Classification :=
  s.find? (fun c => c.name == name && c.level == level)

/-! ### `isDescendantOf`

The source walks the parent links upward depth-first, threading a mutable
`visited` set to survive cycles.  The embedding makes the `visited` set an
explicit value and bounds the recursion depth by a fuel parameter; `none`
models the (never reached) exhaustion of the fuel. -/

/-- The loop `for (const parent of parents) { if (parent.$id === ancestorId)
return true; if (check(parent.$id)) return true; }` of the source, threading
the visited set through the recursive calls `f`. -/
def checkList (f : String → List String → Option (Bool × List String))
    (ancestorId : String) :
    List Classification → List String → Option (Bool × List String)
  | [], visited => some (false, visited)
  | p :: ps, visited =>
    if p.id = ancestorId then some (true, visited)
    else
      match f p.id visited with
      | none => none
      | some (true, v) => some (true, v)
      | some (false, v) => checkList f ancestorId ps v

/-- The inner `check(currentId)` of `isDescendantOf`, with explicit
visited set and fuel. -/
def check (s : Store) (ancestorId : String) :
    Nat → String → List String → Option (Bool × List String)
  | 0, _, _ => none
  | fuel + 1, currentId, visited =>
    if currentId = ancestorId then some (true, visited)
    else if currentId ∈ visited then some (false, visited)
    else
      let visited' := currentId :: visited
      let parents := getParents s currentId
      if parents = [] then some (false, visited')
      else checkList (fun i v => check s ancestorId fuel i v) ancestorId parents visited'

/-- The body of `isDescendantOf`: the outer loop over the direct parents of
`childId`, starting from an empty visited set.  Each inner walk gets fuel
`s.length + 1`, enough to visit every cached node once. -/
def isDescendantOfCore (s : Store) (childId ancestorId : String) :
    Option (Bool × List String) :=
  checkList (fun i v => check s ancestorId (s.length + 1) i v) ancestorId
    (getParents s childId) []

/-- `isDescendantOf`: true when the cached taxonomy links `childId` upward
to `ancestorId`. -/
def isDescendantOf (s : Store) (childId ancestorId : String) : Bool :=
  match isDescendantOfCore s childId ancestorId with
  | none => false
  | some (b, _) => b

/-! ### The parent-link step relation and avoiding paths -/

/-- One parent-link step, resolved through the cache: `b` is the ID of one
of the resolved parents of `a`. -/
def parentStep (s : Store) (a b : String) : Prop :=
  ∃ p ∈ getParents s a, p.id = b

/-- A (possibly empty) chain of parent-link steps from `x` to `y` whose
targets all avoid `vis`. -/
def Reaches (s : Store) (vis : List String) (x y : String) : Prop :=
  Relation.ReflTransGen (fun u v => parentStep s u v ∧ v ∉ vis) x y

/-- `y` lies in the DFS closure of `x` avoiding `vis`: `x` itself is
unvisited and some avoiding chain leads from `x` to `y`. -/
def InClos (s : Store) (vis : List String) (x y : String) : Prop :=
  x ∉ vis ∧ Reaches s vis x y

/-- The number of cached IDs not yet visited: the termination measure of
the walk. -/
def unseen (s : Store) (vis : List String) : Nat :=
  (((s.map (fun c => c.id)).dedup).filter (fun i => decide (i ∉ vis))).length

/-! ### Completeness: a false answer excludes every chain of parent links -/

/-- What a `false` answer of `check` guarantees: the final visited set is
the initial one plus the avoiding closure of the current node, and no node
of that closure steps to the ancestor. -/
def CheckFalseSpec (s : Store) (anc cur : String) (vis vis' : List String) : Prop :=
  cur ≠ anc ∧ (∀ z, z ∈ vis' ↔ (z ∈ vis ∨ InClos s vis cur z)) ∧
    (∀ y, InClos s vis cur y → ¬ parentStep s y anc)

/-- What a `false` answer of the parent loop guarantees, simultaneously
over all the processed parents. -/
def LoopFalseSpec (s : Store) (anc : String) (ps : List Classification)
    (vis vis' : List String) : Prop :=
  (∀ p ∈ ps, p.id ≠ anc) ∧
  (∀ z, z ∈ vis' ↔ (z ∈ vis ∨ ∃ p ∈ ps, InClos s vis p.id z)) ∧
  (∀ y, (∃ p ∈ ps, InClos s vis p.id y) → ¬ parentStep s y anc)

/-! ### The verification-status computation of `VerifyCard` -/

/-- The parsed LLM suggestion attached to a pending bookmark. -/
structure ParsedLlmClassification where
  level1TagName : Option String
  level2TagName : Option String
  level3TagNames : List String
deriving Repr, DecidableEq

/-- The per-tag status: the suggested name matched an existing tag, or a
new tag would be created. -/
inductive TagState where
  | existing
  | new
deriving Repr, DecidableEq

/-- Status of a single suggested tag (`ClassificationStatus`). -/
structure ClassificationStatus where
  name : String
  status : TagState
  existingId : Option String
  intendedParentId : Option String
  intendedLevel : Nat
  hierarchyValid : Bool
deriving Repr, DecidableEq

/-- Overall status of the LLM suggestion (`LlmClassificationStatus`). -/
structure LlmClassificationStatus where
  level1 : Option ClassificationStatus
  level2 : Option ClassificationStatus
  level3 : List ClassificationStatus
  isValidOverallHierarchy : Bool
  hasSuggestion : Bool
deriving Repr, DecidableEq

/-- JavaScript truthiness of an optional string: present and nonempty. -/
def optTruthy : Option String → Bool
  | none => false
  | some s => decide (s ≠ "")

/-- `Array.prototype.includes` on an ID list. -/
def includes (l : List String) (x : String) : Bool := l.contains x

/-- The level-2 block of the status computation: produces the `level2`
entry and the contribution to `isValidOverallHierarchy`. -/
def processL2 (s : Store) (l2Name : String) (currentL1Id : Option String) :
    ClassificationStatus × Bool :=
  match findClassificationByNameAndLevel s l2Name 2 with
  | none =>
    ({ name := l2Name, status := TagState.new, existingId := none,
       intendedParentId := currentL1Id, intendedLevel := 2,
       hierarchyValid := true }, true)
  | some e2 =>
    match currentL1Id with
    | none =>
      ({ name := l2Name, status := TagState.new, existingId := none,
         intendedParentId := none, intendedLevel := 2,
         hierarchyValid := false }, true)
    | some l1id =>
      if l1id = "" then
        ({ name := l2Name, status := TagState.existing, existingId := some e2.id,
           intendedParentId := some l1id, intendedLevel := 2,
           hierarchyValid := true }, true)
      else
        let pv := includes e2.parentIds l1id
        ({ name := l2Name, status := TagState.existing, existingId := some e2.id,
           intendedParentId := some l1id, intendedLevel := 2,
           hierarchyValid := pv }, pv)

/-- One iteration of the level-3 loop: produces the pushed entry and the
contribution to `isValidOverallHierarchy`. -/
def processL3One (s : Store) (l3Name : String) (intendedL2ParentId : Option String)
    (l2IsNew : Bool) (l2HierarchyValid : Bool) : ClassificationStatus × Bool :=
  match findClassificationByNameAndLevel s l3Name 3 with
  | none =>
    ({ name := l3Name, status := TagState.new, existingId := none,
       intendedParentId := intendedL2ParentId, intendedLevel := 3,
       hierarchyValid := true }, true)
  | some e3 =>
    if optTruthy intendedL2ParentId then
      let pv := includes e3.parentIds (intendedL2ParentId.getD "")
      ({ name := l3Name, status := TagState.existing,
         existingId := if pv then some e3.id else none,
         intendedParentId := intendedL2ParentId, intendedLevel := 3,
         hierarchyValid := pv }, pv)
    else if l2IsNew then
      ({ name := l3Name, status := TagState.new, existingId := none,
         intendedParentId := intendedL2ParentId, intendedLevel := 3,
         hierarchyValid := false }, true)
    else if !l2HierarchyValid then
      ({ name := l3Name, status := TagState.new, existingId := none,
         intendedParentId := intendedL2ParentId, intendedLevel := 3,
         hierarchyValid := false }, true)
    else
      ({ name := l3Name, status := TagState.existing, existingId := some e3.id,
         intendedParentId := intendedL2ParentId, intendedLevel := 3,
         hierarchyValid := true }, true)

/-- The entries pushed when level-3 tags are suggested but the level-2
context is unusable: all forced to `new` with broken parent context. -/
def forcedNewL3 (names : List String) : List ClassificationStatus :=
  names.map (fun n =>
    { name := n, status := TagState.new, existingId := none,
      intendedParentId := none, intendedLevel := 3, hierarchyValid := false })

/-- The level-3 block of the status computation. -/
def assembleL3 (s : Store) (level2Entry : Option ClassificationStatus)
    (l3Names : List String) : List ClassificationStatus × Bool :=
  if l3Names.isEmpty then ([], true)
  else
    match level2Entry with
    | none => (forcedNewL3 l3Names, false)
    | some l2 =>
      if decide (l2.status = TagState.new) || l2.hierarchyValid then
        let intendedL2ParentId :=
          if l2.status = TagState.new then none else l2.existingId
        let pairs := l3Names.map (fun n =>
          processL3One s n intendedL2ParentId
            (decide (l2.status = TagState.new)) l2.hierarchyValid)
        (pairs.map Prod.fst, pairs.all Prod.snd)
      else (forcedNewL3 l3Names, false)

/-- `llmClassificationStatus`: the computed verification status of a
bookmark's LLM suggestion against the (loaded) classification store.
`storeReady` is false while the store has not loaded. -/
def llmClassificationStatus (s : Store) (storeReady : Bool)
    (llmSuggest : Option ParsedLlmClassification) : LlmClassificationStatus :=
  if storeReady = false then
    { level1 := none, level2 := none, level3 := [],
      isValidOverallHierarchy := false, hasSuggestion := llmSuggest.isSome }
  else
    match llmSuggest with
    | none =>
      { level1 := none, level2 := none, level3 := [],
        isValidOverallHierarchy := true, hasSuggestion := false }
    | some llm =>
      if optTruthy llm.level1TagName = false then
        { level1 := none, level2 := none, level3 := [],
          isValidOverallHierarchy := true, hasSuggestion := false }
      else
        let l1Name := llm.level1TagName.getD ""
        let existingL1 := findClassificationByNameAndLevel s l1Name 1
        let level1Entry : ClassificationStatus :=
          { name := l1Name,
            status := if existingL1.isSome then TagState.existing else TagState.new,
            existingId := existingL1.map (fun c => c.id),
            intendedParentId := none, intendedLevel := 1, hierarchyValid := true }
        let currentL1Id := existingL1.map (fun c => c.id)
        if optTruthy llm.level2TagName then
          let l2Name := llm.level2TagName.getD ""
          let lv2 := processL2 s l2Name currentL1Id
          let lv3 := assembleL3 s (some lv2.1) llm.level3TagNames
          { level1 := some level1Entry, level2 := some lv2.1, level3 := lv3.1,
            isValidOverallHierarchy := lv2.2 && lv3.2, hasSuggestion := true }
        else
          let lv3 := assembleL3 s none llm.level3TagNames
          { level1 := some level1Entry, level2 := none, level3 := lv3.1,
            isValidOverallHierarchy := lv3.2, hasSuggestion := true }

/-! ### The claimed characterisation of `isValidOverallHierarchy`

The following definitions follow the words of the specification claim (not
the code), to be compared with the computation above. -/

/-- A slot of the suggestion, read as the claim reads it: a name is
suggested when the field holds a nonempty string. -/
def suggestedName : Option String → Option String
  | none => none
  | some s => if s = "" then none else some s

/-- Claim condition (a): the suggested level-2 name matches an existing
level-2 tag, the suggested level-1 name matches an existing level-1 tag,
and the matched level-2 tag's parents do not contain the matched level-1
tag's ID. -/
def condA (s : Store) (llm : ParsedLlmClassification) : Bool :=
  match suggestedName llm.level2TagName, suggestedName llm.level1TagName with
  | some l2n, some l1n =>
    match findClassificationByNameAndLevel s l2n 2,
        findClassificationByNameAndLevel s l1n 1 with
    | some e2, some e1 => !(includes e2.parentIds e1.id)
    | _, _ => false
  | _, _ => false

/-- The usable existing level-2 ID of the claim: the matched existing
level-2 tag, provided it is parented under the matched existing level-1. -/
def usableL2 (s : Store) (llm : ParsedLlmClassification) : Option String :=
  match suggestedName llm.level2TagName, suggestedName llm.level1TagName with
  | some l2n, some l1n =>
    match findClassificationByNameAndLevel s l2n 2,
        findClassificationByNameAndLevel s l1n 1 with
    | some e2, some e1 =>
      if includes e2.parentIds e1.id then some e2.id else none
    | _, _ => none
  | _, _ => none

/-- Claim condition (b): a suggested level-3 name matches an existing
level-3 tag whose parents do not contain the usable level-2 ID. -/
def condB (s : Store) (llm : ParsedLlmClassification) : Bool :=
  match usableL2 s llm with
  | some uid => llm.level3TagNames.any (fun n =>
      match findClassificationByNameAndLevel s n 3 with
      | some e3 => !(includes e3.parentIds uid)
      | none => false)
  | none => false

/-- Claim condition (c): level-3 names are suggested while the level-2
suggestion is absent or its existing tag has invalid parentage under the
matched existing level-1. -/
def condC (s : Store) (llm : ParsedLlmClassification) : Bool :=
  !llm.level3TagNames.isEmpty &&
    (match suggestedName llm.level2TagName with
     | none => true
     | some l2n =>
       match findClassificationByNameAndLevel s l2n 2,
           (suggestedName llm.level1TagName).bind
             (fun l1n => findClassificationByNameAndLevel s l1n 1) with
       | some e2, some e1 => !(includes e2.parentIds e1.id)
       | _, _ => false)

/-! ### The approval workflow of the verify page -/

/-- A bookmark document as the verify page sees it
(`BookmarkWithParsedData`). -/
structure Bookmark where
  id : String
  title : String
  url : String
  description : String
  status : String
  level1Id : Option String
  level2Ids : List String
  level3Ids : List String
  llmClassification : Option String
  suggestedNewTags : Option String
  parsedLlmClassification : Option ParsedLlmClassification
deriving Repr, DecidableEq

/-- The state the workflow touches: the backend classification collection,
the pinia store cache of it, and the backend bookmark collection. -/
structure World where
  classifications : Store
  storeCache : Store
  bookmarks : List Bookmark
deriving Repr, DecidableEq

/-- Outcomes of the successive backend calls: `some id` makes the call
succeed (a create uses the string as the new document's ID), `none` makes
it fail. An exhausted oracle fails. -/
abbrev Oracle := List (Option String)

def takeOutcome : Oracle → Option String × Oracle
  | [] => (none, [])
  | o :: rest => (o, rest)

/-- `databases.createDocument` on the classifications collection. -/
def createClassificationDoc (w : World) (orc : Oracle) (name : String)
    (level : Nat) (parentIds : List String) : Option String × World × Oracle :=
  match takeOutcome orc with
  | (none, rest) => (none, w, rest)
  | (some newId, rest) =>
    (some newId,
     { w with classifications :=
        w.classifications ++ [⟨newId, name, level, parentIds⟩] }, rest)

/-- `classificationStore.fetchClassifications(true)`: reload the cache from
the backend collection. -/
def fetchClassifications (w : World) : World :=
  { w with storeCache := w.classifications }

/-- What a call of `findOrCreateTag` comes back with: a returned value
(`some` tag ID or `null`), or a thrown error. -/
inductive FocOutcome where
  | ok (tagId : Option String)
  | err
deriving Repr, DecidableEq

/-- The creation branch of `findOrCreateTag`: create the document (parents
filtered of falsy entries for level > 1, empty for level 1), refresh the
store on success, throw on failure. -/
def createTag (w : World) (orc : Oracle) (name : String) (level : Nat)
    (parentIds : List String) : FocOutcome × World × Oracle :=
  match createClassificationDoc w orc name level
      (if 1 < level then parentIds.filter (fun i => decide (i ≠ "")) else []) with
  | (none, w', orc') => (FocOutcome.err, w', orc')
  | (some newId, w', orc') => (FocOutcome.ok (some newId), fetchClassifications w', orc')

/-- `findOrCreateTag(name, level, parentIds)`. -/
def findOrCreateTag (w : World) (orc : Oracle) (name : String) (level : Nat)
    (parentIds : List String) : FocOutcome × World × Oracle :=
  match findClassificationByNameAndLevel w.storeCache name level with
  | some existingTag =>
    if 1 < level then
      match parentIds.head? with
      | none => (FocOutcome.ok none, w, orc)
      | some requiredParentId =>
        if requiredParentId = "" then (FocOutcome.ok none, w, orc)
        else if includes existingTag.parentIds requiredParentId then
          (FocOutcome.ok (some existingTag.id), w, orc)
        else createTag w orc name level parentIds
    else (FocOutcome.ok (some existingTag.id), w, orc)
  | none => createTag w orc name level parentIds

/-- The behaviour claim C4 ascribes to `findOrCreateTag`, amended with the
missing-parent case: written from the claim's words, for comparison. -/
def claimedFindOrCreateTag (w : World) (orc : Oracle) (name : String)
    (level : Nat) (parentIds : List String) : FocOutcome × World × Oracle :=
  let create :=
    let doc : Option String → Classification := fun newId =>
      ⟨newId.getD "", name, level,
        if 1 < level then parentIds.filter (fun i => decide (i ≠ "")) else []⟩
    match orc with
    | some newId :: rest =>
      (FocOutcome.ok (some newId),
       ⟨w.classifications ++ [doc (some newId)],
        w.classifications ++ [doc (some newId)], w.bookmarks⟩, rest)
    | none :: rest => (FocOutcome.err, w, rest)
    | [] => (FocOutcome.err, w, [])
  match findClassificationByNameAndLevel w.storeCache name level with
  | some t =>
    if level ≤ 1 then (FocOutcome.ok (some t.id), w, orc)
    else if optTruthy parentIds.head? = false then (FocOutcome.ok none, w, orc)
    else if includes t.parentIds (parentIds.head?.getD "") then
      (FocOutcome.ok (some t.id), w, orc)
    else create
  | none => create

/-- Replace the first element satisfying `p` by its image under `f`
(the in-place mutation of the one found document). -/
def updateFirst {α : Type} (p : α → Bool) (f : α → α) : List α → List α
  | [] => []
  | b :: bs => if p b then f b :: bs else b :: updateFirst p f bs

/-- The bookmark update of a rejection: only the status field. -/
def setRejected (b : Bookmark) : Bookmark := { b with status := "rejected" }

/-- The bookmark update of an approval: status, tag IDs and cleared
suggestion fields. -/
def setApproved (finalL1Id : String) (level2Ids level3Ids : List String)
    (b : Bookmark) : Bookmark :=
  { b with
    status := "verified",
    level1Id := some finalL1Id,
    level2Ids := level2Ids,
    level3Ids := level3Ids,
    llmClassification := none,
    suggestedNewTags := none }

/-- `databases.updateDocument` on the bookmarks collection: consumes one
oracle outcome; succeeds when the outcome allows it and the document
exists. -/
def updateBookmarkDoc (w : World) (orc : Oracle) (bookmarkId : String)
    (f : Bookmark → Bookmark) : Bool × World × Oracle :=
  match takeOutcome orc with
  | (none, rest) => (false, w, rest)
  | (some _, rest) =>
    if w.bookmarks.any (fun b => b.id == bookmarkId) then
      (true,
       { w with
         bookmarks := updateFirst (fun b => b.id == bookmarkId) f w.bookmarks },
       rest)
    else (false, w, rest)

/-- How a handler run ended: a guard returned early, the work completed,
or an error was caught. -/
inductive RunResult where
  | earlyExit
  | ok
  | err
deriving Repr, DecidableEq

/-- `handleRejectBookmark`. -/
def handleRejectBookmark (w : World) (orc : Oracle) (bookmarkId : String) :
    RunResult × World × Oracle :=
  if bookmarkId = "" then (RunResult.earlyExit, w, orc)
  else
    match updateBookmarkDoc w orc bookmarkId setRejected with
    | (true, w', orc') => (RunResult.ok, w', orc')
    | (false, w', orc') => (RunResult.err, w', orc')

/-- The final bookmark update of `handleApproveBookmark`. -/
def finishUpdate (w : World) (orc : Oracle) (bookmarkId finalL1Id : String)
    (finalL2Id : Option String) (finalL3Ids : List String) :
    RunResult × World × Oracle :=
  let level2Ids := match finalL2Id with | some i => [i] | none => []
  match updateBookmarkDoc w orc bookmarkId
      (setApproved finalL1Id level2Ids finalL3Ids) with
  | (true, w', orc') => (RunResult.ok, w', orc')
  | (false, w', orc') => (RunResult.err, w', orc')

/-- The loop over the level-3 suggestions: find or create each tag under
the resolved level-2 ID, in order; `none` models a thrown error. -/
def processLevel3 (finalL2Id : String) :
    List ClassificationStatus → World → Oracle →
      Option (List String) × World × Oracle
  | [], w, orc => (some [], w, orc)
  | st :: rest, w, orc =>
    match findOrCreateTag w orc st.name 3 [finalL2Id] with
    | (FocOutcome.ok (some l3Id), w', orc') =>
      if l3Id = "" then (none, w', orc')
      else
        match processLevel3 finalL2Id rest w' orc' with
        | (some ids, w'', orc'') => (some (l3Id :: ids), w'', orc'')
        | (none, w'', orc'') => (none, w'', orc'')
    | (FocOutcome.ok none, w', orc') => (none, w', orc')
    | (FocOutcome.err, w', orc') => (none, w', orc')

/-- `handleApproveBookmark(bookmark, status)`. -/
def handleApproveBookmark (w : World) (orc : Oracle) (bm : Bookmark)
    (st : LlmClassificationStatus) : RunResult × World × Oracle :=
  if bm.id = "" then (RunResult.earlyExit, w, orc)
  else if st.isValidOverallHierarchy = false then (RunResult.earlyExit, w, orc)
  else
    match st.level1 with
    | none => (RunResult.earlyExit, w, orc)
    | some st1 =>
      match findOrCreateTag w orc st1.name 1 [] with
      | (FocOutcome.err, w1, orc1) => (RunResult.err, w1, orc1)
      | (FocOutcome.ok none, w1, orc1) => (RunResult.err, w1, orc1)
      | (FocOutcome.ok (some finalL1Id), w1, orc1) =>
        if finalL1Id = "" then (RunResult.err, w1, orc1)
        else
          match st.level2 with
          | none => finishUpdate w1 orc1 bm.id finalL1Id none []
          | some st2 =>
            match findOrCreateTag w1 orc1 st2.name 2 [finalL1Id] with
            | (FocOutcome.err, w2, orc2) => (RunResult.err, w2, orc2)
            | (FocOutcome.ok none, w2, orc2) => (RunResult.err, w2, orc2)
            | (FocOutcome.ok (some finalL2Id), w2, orc2) =>
              if finalL2Id = "" then (RunResult.err, w2, orc2)
              else
                match processLevel3 finalL2Id st.level3 w2 orc2 with
                | (none, w3, orc3) => (RunResult.err, w3, orc3)
                | (some finalL3Ids, w3, orc3) =>
                  finishUpdate w3 orc3 bm.id finalL1Id (some finalL2Id) finalL3Ids

/-- The `approve` wrapper of `VerifyCard`: recompute the status, block on
an invalid hierarchy, reject when there is no suggestion, else hand over
to `handleApproveBookmark`. -/
def approve (w : World) (orc : Oracle) (bm : Bookmark) (storeReady : Bool) :
    RunResult × World × Oracle :=
  let st := llmClassificationStatus w.storeCache storeReady bm.parsedLlmClassification
  if st.isValidOverallHierarchy = false then (RunResult.earlyExit, w, orc)
  else if st.hasSuggestion = false then handleRejectBookmark w orc bm.id
  else handleApproveBookmark w orc bm st

/-- A well-formed taxonomy collection: nonempty, pairwise distinct IDs
(the store keys its cache by ID). -/
def WfStore (s : Store) : Prop :=
  (∀ c ∈ s, c.id ≠ "") ∧ (s.map (fun c => c.id)).Nodup

/-- A benign oracle: every pending backend call succeeds, and the IDs it
mints are nonempty, pairwise distinct and absent from the collection. -/
def OracleFresh (s : Store) (orc : Oracle) : Prop :=
  (∀ o ∈ orc, ∃ i, o = some i ∧ i ≠ "" ∧ ∀ c ∈ s, c.id ≠ i) ∧
    (orc.filterMap (fun o => o)).Nodup

/-- A concrete pending bookmark with an LLM suggestion, for witnesses. -/
def cexBookmark : Bookmark :=
  ⟨"b1", "t", "u", "d", "pending", none, [], [], some "raw", none,
    some ⟨some "A", some "B", ["C"]⟩⟩

/-- A world holding only that bookmark and an empty taxonomy. -/
def cexWorld : World := ⟨[], [], [cexBookmark]⟩

/-- A benign oracle minting four distinct fresh IDs. -/
def cexOracle : Oracle := [some "i1", some "i2", some "i3", some "i4"]

/-- The computed status of the concrete bookmark against the empty store. -/
def cexStatus : LlmClassificationStatus :=
  llmClassificationStatus cexWorld.storeCache true cexBookmark.parsedLlmClassification

/-! ### The public gallery page -/

/-- A bookmark as the gallery page maps it from the backend (`level2Id`
singular, `level3Id` an ID list). -/
structure GalleryBookmark where
  id : String
  title : String
  description : String
  url : String
  level1Id : Option String
  level2Id : Option String
  level3Id : List String
  isFavorite : Bool
deriving Repr, DecidableEq

/-- The gallery page's classification store: the ID-to-name map, in
insertion order. -/
abbrev NameStore := List (String × String)

/-- `classificationMap.get(id)`. -/
def nameMapGet (m : NameStore) (id : String) : Option String :=
  (m.find? (fun e => e.1 == id)).map (fun e => e.2)

/-- `getClassificationNames`: drop falsy IDs, then map each to its cached
name, falling back to the ID itself when the name is missing or falsy. -/
def getClassificationNames (m : NameStore) (ids : List String) : List String :=
  (ids.filter (fun i => decide (i ≠ ""))).map (fun id =>
    match nameMapGet m id with
    | some n => if n = "" then id else n
    | none => id)

/-- `String.prototype.toLowerCase`, character by character. -/
def strLower (s : String) : String := ⟨s.data.map Char.toLower⟩

def startsWithChars : List Char → List Char → Bool
  | [], _ => true
  | _ :: _, [] => false
  | a :: as, b :: bs => a == b && startsWithChars as bs

def containsChars (needle : List Char) : List Char → Bool
  | [] => startsWithChars needle []
  | b :: bs => startsWithChars needle (b :: bs) || containsChars needle bs

/-- `String.prototype.includes`. -/
def strIncludes (hay needle : String) : Bool := containsChars needle.data hay.data

/-- The classification IDs the page gathers from a bookmark. -/
def bookmarkTagIds (b : GalleryBookmark) : List String :=
  (if optTruthy b.level1Id then [b.level1Id.getD ""] else []) ++
  (if optTruthy b.level2Id then [b.level2Id.getD ""] else []) ++
  b.level3Id

/-- `filteredBookmarks`: the fetched bookmarks put through the favorite,
level-1, level-2 and free-text filters in turn. -/
def filteredBookmarks (m : NameStore) (data : Option (List GalleryBookmark))
    (showFavoritesOnly : Bool) (selectedL1Id selectedL2Id : Option String)
    (searchQuery : String) : List GalleryBookmark :=
  match data with
  | none => []
  | some bookmarks =>
    let lowerSearch := strLower searchQuery
    let items1 := if showFavoritesOnly then
        bookmarks.filter (fun b => b.isFavorite) else bookmarks
    let items2 := if optTruthy selectedL1Id then
        items1.filter (fun b => b.level1Id == selectedL1Id) else items1
    let items3 := if optTruthy selectedL2Id then
        items2.filter (fun b => b.level2Id == selectedL2Id) else items2
    if lowerSearch ≠ "" then
      items3.filter (fun b =>
        strIncludes (strLower b.title) lowerSearch ||
        strIncludes (strLower b.description) lowerSearch ||
        (getClassificationNames m (bookmarkTagIds b)).any
          (fun n => strIncludes (strLower n) lowerSearch))
    else items3

/-- From the claim's words: the bookmark's classification names — only IDs
known to the cache contribute a name. -/
def claimTagNames (m : NameStore) (b : GalleryBookmark) : List String :=
  (bookmarkTagIds b).filterMap (fun id => nameMapGet m id)

/-- From the claim's words: the bookmark passes every active filter. -/
def claimPasses (m : NameStore) (showFavoritesOnly : Bool)
    (selectedL1Id selectedL2Id : Option String) (searchQuery : String)
    (b : GalleryBookmark) : Bool :=
  (!showFavoritesOnly || b.isFavorite) &&
  (!(optTruthy selectedL1Id) || b.level1Id == selectedL1Id) &&
  (!(optTruthy selectedL2Id) || b.level2Id == selectedL2Id) &&
  (decide (searchQuery = "") ||
    (strIncludes (strLower b.title) (strLower searchQuery) ||
     strIncludes (strLower b.description) (strLower searchQuery) ||
     (claimTagNames m b).any
       (fun n => strIncludes (strLower n) (strLower searchQuery))))

/-- What the code actually matches in the free-text clause: the cached
names with the raw ID as fallback for IDs absent from the cache. -/
def amendedPasses (m : NameStore) (showFavoritesOnly : Bool)
    (selectedL1Id selectedL2Id : Option String) (searchQuery : String)
    (b : GalleryBookmark) : Bool :=
  (!showFavoritesOnly || b.isFavorite) &&
  (!(optTruthy selectedL1Id) || b.level1Id == selectedL1Id) &&
  (!(optTruthy selectedL2Id) || b.level2Id == selectedL2Id) &&
  (decide (strLower searchQuery = "") ||
    (strIncludes (strLower b.title) (strLower searchQuery) ||
     strIncludes (strLower b.description) (strLower searchQuery) ||
     (getClassificationNames m (bookmarkTagIds b)).any
       (fun n => strIncludes (strLower n) (strLower searchQuery))))

/-- `handleToggleFavorite`: optimistic flip of the first matching
bookmark's flag, then backend update; the flip is rolled back to the
original value when the update fails. -/
def handleToggleFavorite (bookmarks : List GalleryBookmark)
    (updateSucceeds : Bool) (bookmarkId : String) : List GalleryBookmark :=
  match bookmarks.find? (fun b => b.id == bookmarkId) with
  | none => bookmarks
  | some bookmark =>
    let newFavoriteStatus := !bookmark.isFavorite
    let optimistic := updateFirst (fun b => b.id == bookmarkId)
        (fun b => { b with isFavorite := newFavoriteStatus }) bookmarks
    if updateSucceeds then optimistic
    else updateFirst (fun b => b.id == bookmarkId)
        (fun b => { b with isFavorite := bookmark.isFavorite }) optimistic

/-! ### Termination of the visited-set walk -/

/-- The visited set only grows along the loop over parents. -/
theorem checkList_subset (f : String → List String → Option (Bool × List String))
    (anc : String)
    (hf : ∀ i v r, f i v = some r → v ⊆ r.2) :
    ∀ (ps : List Classification) (vis : List String) (r : Bool × List String),
      checkList f anc ps vis = some r → vis ⊆ r.2 := by
  intro ps
  induction ps with
  | nil =>
    intro vis r h
    simp only [checkList, Option.some.injEq] at h
    cases h
    exact fun x hx => hx
  | cons p ps ih =>
    intro vis r h
    simp only [checkList] at h
    split at h
    · cases h; exact fun x hx => hx
    · cases hfv : f p.id vis with
      | none => rw [hfv] at h; cases h
      | some br =>
        rw [hfv] at h
        obtain ⟨b, v⟩ := br
        cases b with
        | true => simp only [Option.some.injEq] at h; cases h; exact hf _ _ _ hfv
        | false => exact List.Subset.trans (hf _ _ _ hfv) (ih v r h)

/-- The visited set only grows along the recursive walk. -/
theorem check_subset (s : Store) (anc : String) :
    ∀ (fuel : Nat) (cur : String) (vis : List String) (r : Bool × List String),
      check s anc fuel cur vis = some r → vis ⊆ r.2 := by
  intro fuel
  induction fuel with
  | zero => intro cur vis r h; simp [check] at h
  | succ fuel ih =>
    intro cur vis r h
    simp only [check] at h
    split at h
    · cases h; exact fun x hx => hx
    · split at h
      · cases h; exact fun x hx => hx
      · split at h
        · cases h; exact fun x hx => List.mem_cons_of_mem _ hx
        · exact List.Subset.trans (fun x hx => List.mem_cons_of_mem _ hx)
            (checkList_subset _ anc (fun i v r' h' => ih i v r' h') _ _ _ h)

theorem filter_length_mono {l : List String} {p q : String → Bool}
    (h : ∀ a, p a = true → q a = true) :
    (l.filter p).length ≤ (l.filter q).length := by
  induction l with
  | nil => simp
  | cons b t ih =>
    by_cases hp : p b = true
    · rw [List.filter_cons_of_pos hp, List.filter_cons_of_pos (h b hp)]
      simpa using ih
    · rw [List.filter_cons_of_neg (by simpa using hp)]
      by_cases hq : q b = true
      · rw [List.filter_cons_of_pos hq]; exact Nat.le_succ_of_le ih
      · rw [List.filter_cons_of_neg (by simpa using hq)]; exact ih

theorem unseen_mono (s : Store) {vis vis' : List String} (h : vis ⊆ vis') :
    unseen s vis' ≤ unseen s vis := by
  refine filter_length_mono ?_
  intro a ha
  simp only [decide_eq_true_eq] at ha ⊢
  exact fun hmem => ha (h hmem)

theorem filter_length_strict {l : List String} {a : String} {vis : List String}
    (hal : a ∈ l) (hav : a ∉ vis) :
    (l.filter (fun i => decide (i ∉ a :: vis))).length <
      (l.filter (fun i => decide (i ∉ vis))).length := by
  induction l with
  | nil => cases hal
  | cons b t ih =>
    by_cases hba : b = a
    · subst hba
      rw [List.filter_cons_of_neg (by simp), List.filter_cons_of_pos (by simpa using hav)]
      have hle : (t.filter (fun i => decide (i ∉ b :: vis))).length ≤
          (t.filter (fun i => decide (i ∉ vis))).length := by
        refine filter_length_mono ?_
        intro x hx
        simp only [decide_eq_true_eq, List.mem_cons] at hx ⊢
        exact fun hmem => hx (Or.inr hmem)
      simp only [List.length_cons]
      omega
    · have hat : a ∈ t := by
        cases List.mem_cons.mp hal with
        | inl h => exact absurd h.symm hba
        | inr h => exact h
      have hstep := ih hat
      by_cases hb1 : b ∈ vis
      · rw [List.filter_cons_of_neg (by simp [hb1]),
          List.filter_cons_of_neg (by simp [hb1])]
        exact hstep
      · rw [List.filter_cons_of_pos (by simp [hb1, hba]),
          List.filter_cons_of_pos (by simp [hb1])]
        simp only [List.length_cons]
        omega

theorem unseen_strict (s : Store) {cur : String} {vis : List String}
    (hmem : cur ∈ s.map (fun c => c.id)) (hvis : cur ∉ vis) :
    unseen s (cur :: vis) < unseen s vis :=
  filter_length_strict (List.mem_dedup.mpr hmem) hvis

/-- A nonempty resolved parent list certifies that the node is cached. -/
theorem mem_ids_of_getParents_ne_nil {s : Store} {cur : String}
    (h : getParents s cur ≠ []) : cur ∈ s.map (fun c => c.id) := by
  unfold getParents at h
  cases hg : getClassification s cur with
  | none => rw [hg] at h; exact absurd rfl h
  | some c =>
    have hc : c ∈ s := List.mem_of_find?_eq_some hg
    have hid : c.id = cur := by
      have := List.find?_some hg
      simpa using this
    exact hid ▸ List.mem_map_of_mem _ hc

/-- The loop over parents never exhausts its fuel when the recursive calls
have enough fuel for the unvisited nodes. -/
theorem checkList_suff (s : Store) (anc : String) (n : Nat)
    (f : String → List String → Option (Bool × List String))
    (hf1 : ∀ cur vis, unseen s vis < n → (f cur vis).isSome = true)
    (hf2 : ∀ i v r, f i v = some r → v ⊆ r.2) :
    ∀ (ps : List Classification) (vis : List String),
      unseen s vis < n → (checkList f anc ps vis).isSome = true := by
  intro ps
  induction ps with
  | nil => intro vis _; simp [checkList]
  | cons p ps ih =>
    intro vis hlt
    simp only [checkList]
    split
    · rfl
    · cases hfv : f p.id vis with
      | none =>
        have := hf1 p.id vis hlt
        rw [hfv] at this
        cases this
      | some br =>
        obtain ⟨b, v⟩ := br
        cases b with
        | true => rfl
        | false =>
          have hsub : vis ⊆ v := hf2 _ _ _ hfv
          exact ih v (lt_of_le_of_lt (unseen_mono s hsub) hlt)

/-- With fuel exceeding the number of unvisited cached nodes, the walk
always completes. -/
theorem check_suff (s : Store) (anc : String) :
    ∀ (fuel : Nat) (cur : String) (vis : List String),
      unseen s vis < fuel → (check s anc fuel cur vis).isSome = true := by
  intro fuel
  induction fuel with
  | zero => intro cur vis h; omega
  | succ fuel ih =>
    intro cur vis hlt
    simp only [check]
    split
    · rfl
    · split
      · rfl
      · split
        · rfl
        · rename_i hcur hvis hpar
          have hmem : cur ∈ s.map (fun c => c.id) := mem_ids_of_getParents_ne_nil hpar
          have hstrict : unseen s (cur :: vis) < unseen s vis := unseen_strict s hmem hvis
          refine checkList_suff s anc fuel _ (fun c' v' h' => ih c' v' h')
            (fun i v r h => check_subset s anc fuel i v r h) _ _ ?_
          omega

theorem unseen_nil_le (s : Store) : unseen s [] ≤ s.length := by
  calc (((s.map (fun c => c.id)).dedup).filter (fun i => decide (i ∉ ([] : List String)))).length
      ≤ ((s.map (fun c => c.id)).dedup).length := List.length_filter_le _ _
    _ ≤ (s.map (fun c => c.id)).length := (List.dedup_sublist _).length_le
    _ = s.length := List.length_map _ _

/-- The walk of `isDescendantOf` always completes within its fuel. -/
theorem core_isSome (s : Store) (childId ancestorId : String) :
    (isDescendantOfCore s childId ancestorId).isSome = true := by
  unfold isDescendantOfCore
  refine checkList_suff s ancestorId (s.length + 1) _
    (fun c v h => check_suff s ancestorId _ c v h)
    (fun i v r h => check_subset s ancestorId _ i v r h) _ _ ?_
  have := unseen_nil_le s
  omega

/-! ### Soundness: a true answer exhibits a chain of parent links -/

theorem checkList_sound (s : Store) (anc : String)
    (f : String → List String → Option (Bool × List String))
    (hf : ∀ cur vis v, f cur vis = some (true, v) →
      cur = anc ∨ Relation.TransGen (parentStep s) cur anc) :
    ∀ (ps : List Classification) (vis v : List String),
      checkList f anc ps vis = some (true, v) →
      ∃ p ∈ ps, p.id = anc ∨ Relation.TransGen (parentStep s) p.id anc := by
  intro ps
  induction ps with
  | nil => intro vis v h; simp [checkList] at h
  | cons p ps ih =>
    intro vis v h
    simp only [checkList] at h
    split at h
    · rename_i hpa; exact ⟨p, List.mem_cons_self _ _, Or.inl hpa⟩
    · cases hfv : f p.id vis with
      | none => rw [hfv] at h; cases h
      | some br =>
        rw [hfv] at h
        obtain ⟨b, v'⟩ := br
        cases b with
        | true =>
          exact ⟨p, List.mem_cons_self _ _, hf _ _ _ hfv⟩
        | false =>
          obtain ⟨q, hq, hcase⟩ := ih v' v h
          exact ⟨q, List.mem_cons_of_mem _ hq, hcase⟩

theorem check_sound (s : Store) (anc : String) :
    ∀ (fuel : Nat) (cur : String) (vis v : List String),
      check s anc fuel cur vis = some (true, v) →
      cur = anc ∨ Relation.TransGen (parentStep s) cur anc := by
  intro fuel
  induction fuel with
  | zero => intro cur vis v h; simp [check] at h
  | succ fuel ih =>
    intro cur vis v h
    simp only [check] at h
    split at h
    · rename_i hca; exact Or.inl hca
    · split at h
      · cases h
      · split at h
        · cases h
        · obtain ⟨p, hp, hcase⟩ :=
            checkList_sound s anc _ (fun c' v' u h' => ih c' v' u h') _ _ _ h
          refine Or.inr ?_
          cases hcase with
          | inl hpa => exact Relation.TransGen.single ⟨p, hp, hpa⟩
          | inr htg => exact Relation.TransGen.head ⟨p, hp, rfl⟩ htg

/-! ### Path lemmas for the completeness direction -/

theorem Reaches_mono (s : Store) {vis vis' : List String} (hsub : vis ⊆ vis')
    {x y : String} (h : Reaches s vis' x y) : Reaches s vis x y :=
  Relation.ReflTransGen.mono (fun _ _ hr => ⟨hr.1, fun hm => hr.2 (hsub hm)⟩) h

theorem InClos_mono (s : Store) {vis vis' : List String} (hsub : vis ⊆ vis')
    {x y : String} (h : InClos s vis' x y) : InClos s vis x y :=
  ⟨fun hm => h.1 (hsub hm), Reaches_mono s hsub h.2⟩

/-- Absorption: reachability avoiding `V` from `b` either stays inside the
closure of `a`, or avoids the whole of `V` extended by that closure. -/
theorem closSplit (s : Store) {V V' : List String} {a : String}
    (hV' : ∀ z, z ∈ V' ↔ (z ∈ V ∨ InClos s V a z)) {b y : String}
    (h : InClos s V b y) : InClos s V a y ∨ InClos s V' b y := by
  obtain ⟨hbV, hr⟩ := h
  have hVsub : V ⊆ V' := fun z hz => (hV' z).mpr (Or.inl hz)
  have aux : ∀ c, Reaches s V c y → InClos s V a y ∨ Reaches s V' c y := by
    intro c hcy
    induction hcy using Relation.ReflTransGen.head_induction_on with
    | refl => exact Or.inr Relation.ReflTransGen.refl
    | head h' hrest ih =>
      rename_i cc dd
      cases ih with
      | inl hL => exact Or.inl hL
      | inr hR =>
        by_cases hdV' : dd ∈ V'
        · cases (hV' dd).mp hdV' with
          | inl hdV => exact absurd hdV h'.2
          | inr hclos => exact Or.inl ⟨hclos.1, hclos.2.trans hrest⟩
        · exact Or.inr (Relation.ReflTransGen.head ⟨h'.1, hdV'⟩ hR)
  by_cases hbV' : b ∈ V'
  · cases (hV' b).mp hbV' with
    | inl h1 => exact absurd h1 hbV
    | inr h2 => exact Or.inl ⟨h2.1, h2.2.trans hr⟩
  · cases aux b hr with
    | inl hL => exact Or.inl hL
    | inr hR => exact Or.inr ⟨hbV', hR⟩

theorem reach_decomp_aux (s : Store) {vis : List String} {cur : String} :
    ∀ b z, Reaches s vis b z →
      z = cur ∨ Reaches s (cur :: vis) b z ∨
        ∃ c', parentStep s cur c' ∧ c' ∉ cur :: vis ∧ Reaches s (cur :: vis) c' z := by
  intro b z h
  induction h using Relation.ReflTransGen.head_induction_on with
  | refl =>
    by_cases hz : z = cur
    · exact Or.inl hz
    · exact Or.inr (Or.inl Relation.ReflTransGen.refl)
  | head h' hrest ih =>
    rename_i bb dd
    cases ih with
    | inl hz => exact Or.inl hz
    | inr ih' =>
      cases ih' with
      | inl hmid =>
        by_cases hd : dd = cur
        · subst hd
          cases Relation.ReflTransGen.cases_head hmid with
          | inl he => exact Or.inl he.symm
          | inr hstep =>
            obtain ⟨c', hc', hrem⟩ := hstep
            exact Or.inr (Or.inr ⟨c', hc'.1, hc'.2, hrem⟩)
        · refine Or.inr (Or.inl (Relation.ReflTransGen.head ⟨h'.1, ?_⟩ hmid))
          simp only [List.mem_cons, not_or]
          exact ⟨hd, h'.2⟩
      | inr hex => exact Or.inr (Or.inr hex)

/-- The closure of an unvisited node decomposes into the node itself and
the closures of its resolved parents with the node marked visited. -/
theorem InClos_decomp (s : Store) {vis : List String} {cur : String}
    (hcur : cur ∉ vis) (z : String) :
    InClos s vis cur z ↔
      (z = cur ∨ ∃ p ∈ getParents s cur, InClos s (cur :: vis) p.id z) := by
  constructor
  · rintro ⟨-, hr⟩
    cases reach_decomp_aux s cur z hr with
    | inl hz => exact Or.inl hz
    | inr h1 =>
      cases h1 with
      | inl hmid =>
        cases Relation.ReflTransGen.cases_head hmid with
        | inl he => exact Or.inl he.symm
        | inr hstep =>
          obtain ⟨c', hc', hrem⟩ := hstep
          obtain ⟨p, hp, hpid⟩ := hc'.1
          exact Or.inr ⟨p, hp, by rw [hpid]; exact ⟨hc'.2, hrem⟩⟩
      | inr hex =>
        obtain ⟨c', hstep, hnotin, hrem⟩ := hex
        obtain ⟨p, hp, hpid⟩ := hstep
        exact Or.inr ⟨p, hp, by rw [hpid]; exact ⟨hnotin, hrem⟩⟩
  · intro h
    cases h with
    | inl hz => subst hz; exact ⟨hcur, Relation.ReflTransGen.refl⟩
    | inr hex =>
      obtain ⟨p, hp, hpnotin, hreach⟩ := hex
      have hpv : p.id ∉ vis := fun hm => hpnotin (List.mem_cons_of_mem _ hm)
      refine ⟨hcur, Relation.ReflTransGen.head ⟨⟨p, hp, rfl⟩, hpv⟩ ?_⟩
      exact Reaches_mono s (fun x hx => List.mem_cons_of_mem _ hx) hreach

theorem checkList_false (s : Store) (anc : String)
    (f : String → List String → Option (Bool × List String))
    (hf : ∀ cur vis vis', f cur vis = some (false, vis') →
      CheckFalseSpec s anc cur vis vis') :
    ∀ (ps : List Classification) (vis vis' : List String),
      checkList f anc ps vis = some (false, vis') →
      LoopFalseSpec s anc ps vis vis' := by
  intro ps
  induction ps with
  | nil =>
    intro vis vis' h
    simp only [checkList, Option.some.injEq, Prod.mk.injEq] at h
    obtain ⟨-, h2⟩ := h
    subst h2
    refine ⟨by simp, fun z => by simp, by simp⟩
  | cons p ps ih =>
    intro vis vis' h
    simp only [checkList] at h
    split at h
    · cases h
    · rename_i hpa
      cases hfv : f p.id vis with
      | none => rw [hfv] at h; cases h
      | some br =>
        rw [hfv] at h
        obtain ⟨b, V₁⟩ := br
        cases b with
        | true => cases h
        | false =>
          have hP := hf p.id vis V₁ hfv
          have hR := ih V₁ vis' h
          obtain ⟨hPne, hPmem, hPnohit⟩ := hP
          obtain ⟨hRne, hRmem, hRnohit⟩ := hR
          refine ⟨?_, ?_, ?_⟩
          · intro q hq
            cases List.mem_cons.mp hq with
            | inl he => subst he; exact hpa
            | inr ht => exact hRne q ht
          · intro z
            constructor
            · intro hz
              cases (hRmem z).mp hz with
              | inl h1 =>
                cases (hPmem z).mp h1 with
                | inl hv => exact Or.inl hv
                | inr hc => exact Or.inr ⟨p, List.mem_cons_self _ _, hc⟩
              | inr h2 =>
                obtain ⟨q, hq, hcq⟩ := h2
                have hsub : vis ⊆ V₁ := fun x hx => (hPmem x).mpr (Or.inl hx)
                exact Or.inr ⟨q, List.mem_cons_of_mem _ hq, InClos_mono s hsub hcq⟩
            · intro hz
              cases hz with
              | inl hv => exact (hRmem z).mpr (Or.inl ((hPmem z).mpr (Or.inl hv)))
              | inr hex =>
                obtain ⟨q, hq, hcq⟩ := hex
                cases List.mem_cons.mp hq with
                | inl he =>
                  subst he
                  exact (hRmem z).mpr (Or.inl ((hPmem z).mpr (Or.inr hcq)))
                | inr ht =>
                  cases closSplit s hPmem hcq with
                  | inl hL => exact (hRmem z).mpr (Or.inl ((hPmem z).mpr (Or.inr hL)))
                  | inr hRc => exact (hRmem z).mpr (Or.inr ⟨q, ht, hRc⟩)
          · intro y hy
            obtain ⟨q, hq, hcq⟩ := hy
            cases List.mem_cons.mp hq with
            | inl he => subst he; exact hPnohit y hcq
            | inr ht =>
              cases closSplit s hPmem hcq with
              | inl hL => exact hPnohit y hL
              | inr hRc => exact hRnohit y ⟨q, ht, hRc⟩

theorem check_false (s : Store) (anc : String) :
    ∀ (fuel : Nat) (cur : String) (vis vis' : List String),
      check s anc fuel cur vis = some (false, vis') →
      CheckFalseSpec s anc cur vis vis' := by
  intro fuel
  induction fuel with
  | zero => intro cur vis vis' h; simp [check] at h
  | succ fuel ih =>
    intro cur vis vis' h
    simp only [check] at h
    split at h
    · cases h
    · rename_i hca
      split at h
      · rename_i hcv
        simp only [Option.some.injEq, Prod.mk.injEq] at h
        obtain ⟨-, h2⟩ := h
        subst h2
        refine ⟨hca, ?_, ?_⟩
        · intro z
          constructor
          · exact fun hz => Or.inl hz
          · intro hz
            cases hz with
            | inl hv => exact hv
            | inr hc => exact absurd hcv hc.1
        · intro y hy
          exact absurd hcv hy.1
      · rename_i hcv
        split at h
        · rename_i hpar
          simp only [Option.some.injEq, Prod.mk.injEq] at h
          obtain ⟨-, h2⟩ := h
          subst h2
          refine ⟨hca, ?_, ?_⟩
          · intro z
            rw [InClos_decomp s hcv z, hpar]
            simp only [List.mem_cons, List.not_mem_nil, false_and, exists_false,
              exists_prop, or_false]
            tauto
          · intro y hy
            rcases (InClos_decomp s hcv y).mp hy with hz | hex
            · subst hz
              rintro ⟨p, hp, -⟩
              rw [hpar] at hp
              cases hp
            · rw [hpar] at hex
              obtain ⟨p, hp, -⟩ := hex
              cases hp
        · rename_i hpar
          have hloop := checkList_false s anc _ (fun c' v' u h' => ih c' v' u h') _ _ _ h
          obtain ⟨hLne, hLmem, hLnohit⟩ := hloop
          refine ⟨hca, ?_, ?_⟩
          · intro z
            rw [hLmem z, InClos_decomp s hcv z]
            simp only [List.mem_cons]
            constructor
            · rintro (⟨he | hv⟩ | hex)
              · exact Or.inr (Or.inl he)
              · exact Or.inl hv
              · exact Or.inr (Or.inr hex)
            · rintro (hv | he | hex)
              · exact Or.inl (Or.inr hv)
              · exact Or.inl (Or.inl he)
              · exact Or.inr hex
          · intro y hy
            rcases (InClos_decomp s hcv y).mp hy with hz | hex
            · subst hz
              rintro ⟨p, hp, hpid⟩
              exact hLne p hp hpid
            · exact hLnohit y hex

/-- Claim C8: `isDescendantOf` terminates on every finite cached taxonomy
and every pair of IDs, cycles included: the visited set prevents the walk
from examining a cached node twice, so the fuelled walk never exhausts a
fuel of one more than the store size. -/
theorem isDescendantOf_terminates (s : Store) (childId ancestorId : String) :
    (isDescendantOfCore s childId ancestorId).isSome = true :=
  core_isSome s childId ancestorId

/-- Claim C6: `isDescendantOf` returns true exactly when the cached
taxonomy contains a non-empty chain of resolved parent links from
`childId` to `ancestorId`. -/
theorem isDescendantOf_iff_path (s : Store) (childId ancestorId : String) :
    isDescendantOf s childId ancestorId = true ↔
      Relation.TransGen (parentStep s) childId ancestorId := by
  have hsome := core_isSome s childId ancestorId
  cases hcore : isDescendantOfCore s childId ancestorId with
  | none => rw [hcore] at hsome; cases hsome
  | some br =>
    obtain ⟨b, v⟩ := br
    have hval : isDescendantOf s childId ancestorId = b := by
      simp [isDescendantOf, hcore]
    rw [hval]
    constructor
    · intro hb
      subst hb
      unfold isDescendantOfCore at hcore
      obtain ⟨p, hp, hcase⟩ :=
        checkList_sound s ancestorId _
          (fun c' v' u h' => check_sound s ancestorId _ c' v' u h') _ _ _ hcore
      cases hcase with
      | inl hpa => exact Relation.TransGen.single ⟨p, hp, hpa⟩
      | inr htg => exact Relation.TransGen.head ⟨p, hp, rfl⟩ htg
    · intro htg
      by_contra hb
      have hb' : b = false := by
        cases b
        · rfl
        · exact absurd rfl hb
      subst hb'
      unfold isDescendantOfCore at hcore
      have hloop := checkList_false s ancestorId _
        (fun c' v' u h' => check_false s ancestorId _ c' v' u h') _ _ _ hcore
      obtain ⟨hLne, -, hLnohit⟩ := hloop
      obtain ⟨z, hcz, hza⟩ := (Relation.TransGen.tail'_iff).mp htg
      cases Relation.ReflTransGen.cases_head hcz with
      | inl he =>
        subst he
        obtain ⟨p, hp, hpa⟩ := hza
        exact hLne p hp hpa
      | inr hstep =>
        obtain ⟨w, hcw, hwz⟩ := hstep
        obtain ⟨p, hp, hpw⟩ := hcw
        refine hLnohit z ⟨p, hp, ?_⟩ hza
        refine ⟨by simp, ?_⟩
        rw [hpw]
        exact Relation.ReflTransGen.mono (fun u w' hr => ⟨hr, by simp⟩) hwz

theorem includes_iff_mem {l : List String} {x : String} :
    includes l x = true ↔ x ∈ l := by
  simp [includes]

/-- Claim C5 fails as stated: with a loaded, empty store and a suggestion
carrying only level-3 names (no level-1 name), condition (c) of the claim
holds, yet the computed `isValidOverallHierarchy` is true. -/
theorem llmStatus_flags_counterexample :
    (llmClassificationStatus [] true
        (some ⟨none, none, ["x"]⟩)).isValidOverallHierarchy = true ∧
      (condA [] ⟨none, none, ["x"]⟩ || condB [] ⟨none, none, ["x"]⟩ ||
        condC [] ⟨none, none, ["x"]⟩) = true :=
  ⟨rfl, rfl⟩

theorem find_nameLevel_mem {s : Store} {n : String} {lv : Nat} {c : Classification}
    (h : findClassificationByNameAndLevel s n lv = some c) : c ∈ s :=
  List.mem_of_find?_eq_some h

theorem processL3One_snd_noparent (s : Store) (n : String) (hv : Bool) :
    (processL3One s n none true hv).2 = true := by
  unfold processL3One
  cases findClassificationByNameAndLevel s n 3 <;> simp [optTruthy]

theorem processL3One_snd_parent (s : Store) (n uid : String) (huid : uid ≠ "") :
    (processL3One s n (some uid) false true).2 =
      (match findClassificationByNameAndLevel s n 3 with
       | none => true
       | some e3 => includes e3.parentIds uid) := by
  unfold processL3One
  cases findClassificationByNameAndLevel s n 3 with
  | none => rfl
  | some e3 => simp [optTruthy, huid]

theorem all_map_snd (l : List String) (f : String → ClassificationStatus × Bool)
    (g : String → Bool) (h : ∀ n, (f n).2 = g n) :
    (l.map f).all Prod.snd = l.all g := by
  induction l with
  | nil => rfl
  | cons a t ih => simp [List.all_cons, h a, ih]

theorem any_eq_not_all (l : List String) (g gb : String → Bool)
    (h : ∀ n, gb n = !(g n)) : l.any gb = !(l.all g) := by
  induction l with
  | nil => rfl
  | cons a t ih => simp [List.any_cons, List.all_cons, h a, ih]

theorem llmStatus_valid_withL2 (s : Store) (llm : ParsedLlmClassification)
    (l1n l2n : String) (hl1n : llm.level1TagName = some l1n) (hl1ne : l1n ≠ "")
    (hl2n : llm.level2TagName = some l2n) (hl2ne : l2n ≠ "") :
    (llmClassificationStatus s true (some llm)).isValidOverallHierarchy =
      ((processL2 s l2n
          ((findClassificationByNameAndLevel s l1n 1).map (fun c => c.id))).2 &&
        (assembleL3 s (some (processL2 s l2n
            ((findClassificationByNameAndLevel s l1n 1).map (fun c => c.id))).1)
          llm.level3TagNames).2) := by
  simp only [llmClassificationStatus, hl1n, hl2n, Option.getD_some, optTruthy]
  simp [hl1ne, hl2ne]

theorem llmStatus_valid_noL2 (s : Store) (llm : ParsedLlmClassification)
    (l1n : String) (hl1n : llm.level1TagName = some l1n) (hl1ne : l1n ≠ "")
    (h2 : optTruthy llm.level2TagName = false) :
    (llmClassificationStatus s true (some llm)).isValidOverallHierarchy =
      (assembleL3 s none llm.level3TagNames).2 := by
  simp only [llmClassificationStatus, hl1n, Option.getD_some, h2]
  simp only [optTruthy]
  simp [hl1ne]

theorem assembleL3_none_snd (s : Store) (names : List String) :
    (assembleL3 s none names).2 = names.isEmpty := by
  unfold assembleL3
  by_cases hne : names.isEmpty = true <;> simp [hne]

theorem assembleL3_newL2_snd (s : Store) (entry : ClassificationStatus)
    (names : List String) (hst : entry.status = TagState.new) :
    (assembleL3 s (some entry) names).2 = true := by
  unfold assembleL3
  by_cases hne : names.isEmpty = true
  · simp [hne]
  · simp only [hne, if_false, Bool.false_eq_true, hst]
    simp only [decide_True, Bool.true_or, if_true, reduceIte]
    rw [all_map_snd _ _ (fun _ => true)
      (fun n => processL3One_snd_noparent s n entry.hierarchyValid)]
    simp

theorem assembleL3_existingL2_snd (s : Store) (entry : ClassificationStatus)
    (names : List String) (uid : String) (hst : entry.status = TagState.existing)
    (hv : entry.hierarchyValid = true) (hid : entry.existingId = some uid)
    (huid : uid ≠ "") :
    (assembleL3 s (some entry) names).2 = names.all (fun n =>
      match findClassificationByNameAndLevel s n 3 with
      | none => true
      | some e3 => includes e3.parentIds uid) := by
  unfold assembleL3
  by_cases hne : names.isEmpty = true
  · rw [List.isEmpty_iff.mp hne]
    simp
  · simp only [hne, if_false, Bool.false_eq_true, hst, hv, hid]
    simp only [reduceCtorEq, decide_False, Bool.false_or, if_true, reduceIte,
      if_false]
    exact all_map_snd _ _ _ (fun n => processL3One_snd_parent s n uid huid)

/-- Claim C5, amended: for a loaded store whose documents carry nonempty
IDs, and a suggestion that does include a level-1 name, the computed
`isValidOverallHierarchy` is false exactly when condition (a), (b) or (c)
of the claim holds (reading the invalid parentage of (c) as the matched
existing level-2 tag not being parented under the matched existing
level-1 tag). -/
theorem llmStatus_flags_iff (s : Store) (llm : ParsedLlmClassification)
    (hl1 : optTruthy llm.level1TagName = true)
    (hwf : ∀ c ∈ s, c.id ≠ "") :
    ((llmClassificationStatus s true (some llm)).isValidOverallHierarchy = false ↔
      (condA s llm || condB s llm || condC s llm) = true) := by
  obtain ⟨l1n, hl1n, hl1ne⟩ : ∃ t, llm.level1TagName = some t ∧ t ≠ "" := by
    cases h : llm.level1TagName with
    | none => rw [h] at hl1; simp [optTruthy] at hl1
    | some t =>
      refine ⟨t, rfl, ?_⟩
      rw [h] at hl1
      simpa [optTruthy] using hl1
  have hsn1 : suggestedName llm.level1TagName = some l1n := by
    rw [hl1n]; simp [suggestedName, hl1ne]
  by_cases h2 : optTruthy llm.level2TagName = true
  · obtain ⟨l2n, hl2n, hl2ne⟩ : ∃ t, llm.level2TagName = some t ∧ t ≠ "" := by
      cases h : llm.level2TagName with
      | none => rw [h] at h2; simp [optTruthy] at h2
      | some t =>
        refine ⟨t, rfl, ?_⟩
        rw [h] at h2
        simpa [optTruthy] using h2
    have hsn2 : suggestedName llm.level2TagName = some l2n := by
      rw [hl2n]; simp [suggestedName, hl2ne]
    rw [llmStatus_valid_withL2 s llm l1n l2n hl1n hl1ne hl2n hl2ne]
    cases hfind2 : findClassificationByNameAndLevel s l2n 2 with
    | none =>
      have hP : processL2 s l2n
          ((findClassificationByNameAndLevel s l1n 1).map (fun c => c.id)) =
          ({ name := l2n, status := TagState.new, existingId := none,
             intendedParentId :=
               (findClassificationByNameAndLevel s l1n 1).map (fun c => c.id),
             intendedLevel := 2, hierarchyValid := true }, true) := by
        simp [processL2, hfind2]
      rw [hP, assembleL3_newL2_snd s _ _ rfl]
      have hRHS : (condA s llm || condB s llm || condC s llm) = false := by
        simp [condA, condB, condC, usableL2, hsn1, hsn2, hfind2]
      rw [hRHS]
      simp
    | some e2 =>
      have he2 : e2.id ≠ "" := hwf e2 (find_nameLevel_mem hfind2)
      cases hfind1 : findClassificationByNameAndLevel s l1n 1 with
      | none =>
        have hP : processL2 s l2n ((none : Option Classification).map (fun c => c.id)) =
            ({ name := l2n, status := TagState.new, existingId := none,
               intendedParentId := none, intendedLevel := 2,
               hierarchyValid := false }, true) := by
          simp [processL2, hfind2]
        rw [hP, assembleL3_newL2_snd s _ _ rfl]
        have hRHS : (condA s llm || condB s llm || condC s llm) = false := by
          simp [condA, condB, condC, usableL2, hsn1, hsn2, hfind2, hfind1]
        rw [hRHS]
        simp
      | some e1 =>
        have he1 : e1.id ≠ "" := hwf e1 (find_nameLevel_mem hfind1)
        by_cases hpv : includes e2.parentIds e1.id = true
        · -- valid level-2 parentage: only condition (b) can fire
          have hmem : e1.id ∈ e2.parentIds := includes_iff_mem.mp hpv
          have hP : processL2 s l2n
              ((some e1 : Option Classification).map (fun c => c.id)) =
              ({ name := l2n, status := TagState.existing, existingId := some e2.id,
                 intendedParentId := some e1.id, intendedLevel := 2,
                 hierarchyValid := true }, true) := by
            simp [processL2, hfind2, he1, hpv, hmem]
          rw [hP, assembleL3_existingL2_snd s _ _ e2.id rfl rfl rfl he2]
          have hA : condA s llm = false := by
            simp [condA, hsn1, hsn2, hfind2, hfind1, hpv, hmem]
          have hC : condC s llm = false := by
            simp [condC, hsn1, hsn2, hfind2, hfind1, hpv, hmem]
          have hB : condB s llm = llm.level3TagNames.any (fun n =>
              match findClassificationByNameAndLevel s n 3 with
              | some e3 => !(includes e3.parentIds e2.id)
              | none => false) := by
            simp [condB, usableL2, hsn1, hsn2, hfind2, hfind1, hpv, hmem]
          rw [hA, hB, hC]
          rw [any_eq_not_all _ (fun n =>
              match findClassificationByNameAndLevel s n 3 with
              | none => true
              | some e3 => includes e3.parentIds e2.id) _ ?_]
          · simp [Bool.not_eq_true']
          · intro n
            cases hfn : findClassificationByNameAndLevel s n 3 <;> simp [hfn]
        · -- broken level-2 parentage: condition (a) fires
          simp only [Bool.not_eq_true] at hpv
          have hnmem : e1.id ∉ e2.parentIds := by
            intro hm
            rw [includes_iff_mem.mpr hm] at hpv
            cases hpv
          have hP : processL2 s l2n
              ((some e1 : Option Classification).map (fun c => c.id)) =
              ({ name := l2n, status := TagState.existing, existingId := some e2.id,
                 intendedParentId := some e1.id, intendedLevel := 2,
                 hierarchyValid := false }, false) := by
            simp [processL2, hfind2, he1, hpv, hnmem]
          rw [hP]
          have hA : condA s llm = true := by
            simp [condA, hsn1, hsn2, hfind2, hfind1, hpv, hnmem]
          rw [hA]
          simp
  · -- no level-2 suggestion
    simp only [Bool.not_eq_true] at h2
    have hsn2 : suggestedName llm.level2TagName = none := by
      cases h : llm.level2TagName with
      | none => rfl
      | some t =>
        rw [h] at h2
        have ht : t = "" := by
          by_contra hne
          simp [optTruthy, hne] at h2
        simp [suggestedName, ht]
    rw [llmStatus_valid_noL2 s llm l1n hl1n hl1ne h2, assembleL3_none_snd]
    have hRHS : (condA s llm || condB s llm || condC s llm)
        = !llm.level3TagNames.isEmpty := by
      simp [condA, condB, condC, usableL2, hsn2]
    rw [hRHS]
    cases h : llm.level3TagNames.isEmpty <;> simp

/-- Claim C4 fails as stated: with an existing level-2 tag of the requested
name and an empty parent list, `findOrCreateTag` returns `null` and creates
nothing, where the claim requires a new document and its ID. -/
theorem findOrCreateTag_counterexample :
    findOrCreateTag ⟨[⟨"b2", "B", 2, []⟩], [⟨"b2", "B", 2, []⟩], []⟩
        [some "fresh"] "B" 2 [] =
      (FocOutcome.ok none, ⟨[⟨"b2", "B", 2, []⟩], [⟨"b2", "B", 2, []⟩], []⟩,
        [some "fresh"]) := by
  rfl

/-- Claim C4, amended with the missing-parent case: `findOrCreateTag`
behaves exactly as the claimed case analysis prescribes — existing tag with
level 1 or matching first parent reused; existing tag at level > 1 with a
missing or empty first parent yields `null` and no document; otherwise one
document is created with the given (falsy-filtered) parents and its ID
returned, the creation failing when the backend call fails. -/
theorem findOrCreateTag_spec (w : World) (orc : Oracle) (name : String)
    (level : Nat) (parentIds : List String) :
    findOrCreateTag w orc name level parentIds =
      claimedFindOrCreateTag w orc name level parentIds := by
  unfold findOrCreateTag claimedFindOrCreateTag
  cases hfind : findClassificationByNameAndLevel w.storeCache name level with
  | none =>
    simp only
    unfold createTag createClassificationDoc fetchClassifications takeOutcome
    cases orc with
    | nil => rfl
    | cons o rest => cases o <;> rfl
  | some t =>
    simp only
    by_cases hlv : 1 < level
    · rw [if_pos hlv, if_neg (by omega)]
      cases hhd : parentIds.head? with
      | none => simp [optTruthy]
      | some p =>
        simp only [Option.getD_some]
        by_cases hp : p = ""
        · subst hp
          simp [optTruthy]
        · rw [if_neg hp]
          simp only [optTruthy, ne_eq, hp, not_false_eq_true,
            decide_True, Bool.true_eq_false, if_false]
          by_cases hinc : includes t.parentIds p = true
          · simp [hinc]
          · simp only [Bool.not_eq_true] at hinc
            rw [hinc]
            simp only [Bool.false_eq_true, if_false]
            unfold createTag createClassificationDoc fetchClassifications takeOutcome
            cases orc with
            | nil => rfl
            | cons o rest => cases o <;> rfl
    · rw [if_neg hlv, if_pos (by omega)]

/-- Claim C3: when the computed status flags the hierarchy invalid, both
the `VerifyCard` approve action and `handleApproveBookmark` return without
creating any tag or touching any document. -/
theorem approval_gated (w : World) (orc : Oracle) (bm : Bookmark) (ready : Bool)
    (hst : (llmClassificationStatus w.storeCache ready
        bm.parsedLlmClassification).isValidOverallHierarchy = false) :
    approve w orc bm ready = (RunResult.earlyExit, w, orc) ∧
      handleApproveBookmark w orc bm
        (llmClassificationStatus w.storeCache ready bm.parsedLlmClassification) =
        (RunResult.earlyExit, w, orc) := by
  constructor
  · simp [approve, hst]
  · by_cases hid : bm.id = "" <;> simp [handleApproveBookmark, hst, hid]

/-- Witness for claim C3: a not-yet-loaded store flags every suggestion
invalid, and approval leaves the world untouched. -/
theorem approval_gated_witness :
    (llmClassificationStatus (⟨[], [], []⟩ : World).storeCache false
        (some ⟨some "A", none, []⟩)).isValidOverallHierarchy = false ∧
      approve ⟨[], [], []⟩ [some "x"]
          ⟨"b1", "t", "u", "d", "pending", none, [], [], none, none,
            some ⟨some "A", none, []⟩⟩ false =
        (RunResult.earlyExit, ⟨[], [], []⟩, [some "x"]) := by
  refine ⟨rfl, ?_⟩
  exact (approval_gated ⟨[], [], []⟩ [some "x"]
    ⟨"b1", "t", "u", "d", "pending", none, [], [], none, none,
      some ⟨some "A", none, []⟩⟩ false rfl).1

theorem updateFirst_getElem {α : Type} (p : α → Bool) (f : α → α) :
    ∀ (l : List α) (i : Nat),
      (updateFirst p f l)[i]? = l[i]? ∨
        ∃ b, l[i]? = some b ∧ p b = true ∧ (updateFirst p f l)[i]? = some (f b) := by
  intro l
  induction l with
  | nil => intro i; left; rfl
  | cons a t ih =>
    intro i
    by_cases hp : p a = true
    · cases i with
      | zero => right; exact ⟨a, by simp, hp, by simp [updateFirst, hp]⟩
      | succ n => left; simp [updateFirst, hp]
    · cases i with
      | zero => left; simp [updateFirst, hp]
      | succ n =>
        rcases ih n with h | ⟨b, hb, hpb, hub⟩
        · left; simp [updateFirst, hp, h]
        · right; exact ⟨b, by simp [hb], hpb, by simp [updateFirst, hp, hub]⟩

theorem updateFirst_hit {α : Type} (p : α → Bool) (f : α → α) :
    ∀ (l : List α), l.any p = true →
      ∃ (i : Nat) (b : α), l[i]? = some b ∧ p b = true ∧
        (updateFirst p f l)[i]? = some (f b) := by
  intro l
  induction l with
  | nil => intro h; simp at h
  | cons a t ih =>
    intro h
    by_cases hp : p a = true
    · exact ⟨0, a, by simp, hp, by simp [updateFirst, hp]⟩
    · have ht : t.any p = true := by
        simp only [List.any_cons, hp, Bool.false_or] at h
        exact h
      obtain ⟨i, b, h1, h2, h3⟩ := ih ht
      exact ⟨i + 1, b, by simp [h1], h2, by simp [updateFirst, hp, h3]⟩

/-- Claim C9: for every bookmark ID, `handleRejectBookmark` leaves the
classification taxonomy and the store cache untouched, and touches at most
the matched bookmark, on which it changes only the status field, to
`"rejected"`; when the run reports success some matched bookmark was indeed
set to rejected. -/
theorem handleReject_frame (w : World) (orc : Oracle) (bookmarkId : String) :
    ((handleRejectBookmark w orc bookmarkId).2.1.classifications =
        w.classifications) ∧
    ((handleRejectBookmark w orc bookmarkId).2.1.storeCache = w.storeCache) ∧
    (∀ i : Nat,
      (handleRejectBookmark w orc bookmarkId).2.1.bookmarks[i]? =
          w.bookmarks[i]? ∨
        ∃ b, w.bookmarks[i]? = some b ∧ b.id = bookmarkId ∧
          (handleRejectBookmark w orc bookmarkId).2.1.bookmarks[i]? =
            some { b with status := "rejected" }) ∧
    ((handleRejectBookmark w orc bookmarkId).1 = RunResult.ok →
      ∃ (i : Nat) (b : Bookmark), w.bookmarks[i]? = some b ∧ b.id = bookmarkId ∧
        (handleRejectBookmark w orc bookmarkId).2.1.bookmarks[i]? =
          some { b with status := "rejected" }) := by
  unfold handleRejectBookmark updateBookmarkDoc
  by_cases hid : bookmarkId = ""
  · simp [hid]
  · rw [if_neg hid]
    cases horc : takeOutcome orc with
    | mk o rest =>
      cases o with
      | none => simp
      | some u =>
        by_cases hany : w.bookmarks.any (fun b => b.id == bookmarkId) = true
        · simp only [hany, if_true, reduceIte]
          refine ⟨by trivial, by trivial, ?_, ?_⟩
          · intro i
            rcases updateFirst_getElem (fun b => b.id == bookmarkId)
                setRejected w.bookmarks i with h | ⟨b, hb, hpb, hub⟩
            · exact Or.inl h
            · refine Or.inr ⟨b, hb, by simpa using hpb, ?_⟩
              simpa [setRejected] using hub
          · intro _
            obtain ⟨i, b, h1, h2, h3⟩ := updateFirst_hit
              (fun b => b.id == bookmarkId) setRejected w.bookmarks hany
            exact ⟨i, b, h1, by simpa using h2, by simpa [setRejected] using h3⟩
        · simp [hany]

theorem getClassification_append {s adds : Store} {id : String}
    {c : Classification} (h : getClassification s id = some c) :
    getClassification (s ++ adds) id = some c := by
  unfold getClassification at h ⊢
  induction s with
  | nil => simp [List.find?] at h
  | cons a t ih =>
    rw [List.cons_append]
    simp only [List.find?] at h ⊢
    cases ha : a.id == id with
    | true => simp only [ha] at h ⊢; exact h
    | false => simp only [ha] at h ⊢; exact ih h

theorem getClassification_fresh {s : Store} {d : Classification}
    (h : ∀ c ∈ s, c.id ≠ d.id) :
    getClassification (s ++ [d]) d.id = some d := by
  unfold getClassification
  induction s with
  | nil => simp [List.find?]
  | cons a t ih =>
    have ha : (a.id == d.id) = false := by
      simp only [beq_eq_false_iff_ne, ne_eq]
      exact h a (List.mem_cons_self _ _)
    rw [List.cons_append]
    simp only [List.find?, ha]
    exact ih (fun c hc => h c (List.mem_cons_of_mem _ hc))

theorem getClassification_of_mem {s : Store} {c : Classification}
    (hwf : WfStore s) (hc : c ∈ s) : getClassification s c.id = some c := by
  unfold getClassification
  induction s with
  | nil => cases hc
  | cons a t ih =>
    cases List.mem_cons.mp hc with
    | inl he =>
      subst he
      simp [List.find?]
    | inr ht =>
      have ha : (a.id == c.id) = false := by
        simp only [beq_eq_false_iff_ne, ne_eq]
        intro he
        have hnd := hwf.2
        simp only [List.map_cons, List.nodup_cons] at hnd
        exact hnd.1 (he ▸ List.mem_map_of_mem _ ht)
      simp only [List.find?, ha]
      exact ih ⟨fun x hx => hwf.1 x (List.mem_cons_of_mem _ hx),
        (by simpa using hwf.2.of_cons)⟩ ht

theorem headMem {α : Type} {l : List α} {a : α} (h : l.head? = some a) :
    a ∈ l := by
  cases l with
  | nil => cases h
  | cons b t =>
    simp only [List.head?_cons, Option.some.injEq] at h
    subst h
    exact List.mem_cons_self _ _

theorem find_nameLevel_facts {s : Store} {n : String} {lv : Nat}
    {c : Classification} (h : findClassificationByNameAndLevel s n lv = some c) :
    c ∈ s ∧ c.name = n ∧ c.level = lv := by
  refine ⟨List.mem_of_find?_eq_some h, ?_⟩
  have := List.find?_some h
  simpa using this

/-- `createTag` under a benign oracle: one document is appended with the
minted ID, the given name and level, and the falsy-filtered parents; the
cache is refreshed. -/
theorem createTag_success (w : World) (orc : Oracle) (name : String)
    (level : Nat) (parentIds : List String)
    (hwf : WfStore w.classifications)
    (hfresh : OracleFresh w.classifications orc)
    (hnz : orc ≠ []) :
    ∃ (tagId : String) (w' : World) (orc' : Oracle),
      createTag w orc name level parentIds =
        (FocOutcome.ok (some tagId), w', orc') ∧
      tagId ≠ "" ∧
      w'.storeCache = w'.classifications ∧
      w'.bookmarks = w.bookmarks ∧
      WfStore w'.classifications ∧
      OracleFresh w'.classifications orc' ∧
      orc.length ≤ orc'.length + 1 ∧
      (∃ added, w'.classifications = w.classifications ++ added) ∧
      (∃ c, getClassification w'.classifications tagId = some c ∧
        c.name = name ∧ c.level = level ∧
        (∀ p, parentIds.head? = some p → p ≠ "" → 1 < level →
          p ∈ c.parentIds)) := by
  cases orc with
  | nil => exact absurd rfl hnz
  | cons o rest =>
    obtain ⟨i, ho, hine, hiold⟩ := hfresh.1 o (List.mem_cons_self _ _)
    subst ho
    refine ⟨i,
      ⟨w.classifications ++
          [⟨i, name, level,
            if 1 < level then parentIds.filter (fun x => decide (x ≠ "")) else []⟩],
        w.classifications ++
          [⟨i, name, level,
            if 1 < level then parentIds.filter (fun x => decide (x ≠ "")) else []⟩],
        w.bookmarks⟩,
      rest, ?_, hine, rfl, rfl, ?_, ?_, by simp, ⟨_, rfl⟩, ?_⟩
    · unfold createTag createClassificationDoc takeOutcome fetchClassifications
      rfl
    · constructor
      · intro c hc
        rcases List.mem_append.mp hc with h1 | h2
        · exact hwf.1 c h1
        · simp only [List.mem_singleton] at h2
          subst h2
          exact hine
      · simp only [List.map_append, List.map_cons, List.map_nil]
        rw [List.nodup_append]
        refine ⟨hwf.2, List.nodup_singleton _, ?_⟩
        intro x hx
        simp only [List.mem_singleton]
        intro he
        subst he
        obtain ⟨c, hc, hcid⟩ := List.mem_map.mp hx
        exact hiold c hc hcid
    · have hnd := hfresh.2
      simp only [List.filterMap_cons] at hnd
      simp only [List.nodup_cons] at hnd
      constructor
      · intro o' ho'
        obtain ⟨i', hi', hi'ne, hi'old⟩ :=
          hfresh.1 o' (List.mem_cons_of_mem _ ho')
        refine ⟨i', hi', hi'ne, ?_⟩
        intro c hc
        rcases List.mem_append.mp hc with h1 | h2
        · exact hi'old c h1
        · simp only [List.mem_singleton] at h2
          subst h2
          show i ≠ i'
          intro he
          subst he
          exact hnd.1 (List.mem_filterMap.mpr ⟨o', ho', by rw [hi']⟩)
      · exact hnd.2
    · refine ⟨⟨i, name, level,
          if 1 < level then parentIds.filter (fun x => decide (x ≠ "")) else []⟩,
        ?_, rfl, rfl, ?_⟩
      · exact getClassification_fresh (fun c hc => hiold c hc)
      · intro p hp hpne hlv
        rw [if_pos hlv]
        refine List.mem_filter.mpr ⟨headMem hp, by simp [hpne]⟩

/-- `findOrCreateTag` under a benign oracle, a synced cache and a usable
parent list: it yields a nonempty tag ID naming a document of the final
taxonomy with the requested name and level, containing the required parent
for levels above one; the taxonomy only grows. -/
theorem findOrCreateTag_success (w : World) (orc : Oracle) (name : String)
    (level : Nat) (parentIds : List String)
    (hsync : w.storeCache = w.classifications)
    (hwf : WfStore w.classifications)
    (hfresh : OracleFresh w.classifications orc)
    (hnz : orc ≠ [])
    (hpar : 1 < level → ∃ p, parentIds.head? = some p ∧ p ≠ "") :
    ∃ (tagId : String) (w' : World) (orc' : Oracle),
      findOrCreateTag w orc name level parentIds =
        (FocOutcome.ok (some tagId), w', orc') ∧
      tagId ≠ "" ∧
      w'.storeCache = w'.classifications ∧
      w'.bookmarks = w.bookmarks ∧
      WfStore w'.classifications ∧
      OracleFresh w'.classifications orc' ∧
      orc.length ≤ orc'.length + 1 ∧
      (∃ added, w'.classifications = w.classifications ++ added) ∧
      (∃ c, getClassification w'.classifications tagId = some c ∧
        c.name = name ∧ c.level = level ∧
        (∀ p, parentIds.head? = some p → p ≠ "" → 1 < level →
          p ∈ c.parentIds)) := by
  unfold findOrCreateTag
  rw [hsync]
  cases hfind : findClassificationByNameAndLevel w.classifications name level with
  | none =>
    simp only
    exact createTag_success w orc name level parentIds hwf hfresh hnz
  | some t =>
    obtain ⟨htmem, htname, htlevel⟩ := find_nameLevel_facts hfind
    simp only
    by_cases hlv : 1 < level
    · rw [if_pos hlv]
      obtain ⟨p, hp, hpne⟩ := hpar hlv
      simp only [hp]
      rw [if_neg hpne]
      by_cases hinc : includes t.parentIds p = true
      · rw [if_pos hinc]
        refine ⟨t.id, w, orc, rfl, hwf.1 t htmem, hsync, rfl, hwf, hfresh,
          by omega, ⟨[], by simp⟩,
          ⟨t, getClassification_of_mem hwf htmem, htname, htlevel, ?_⟩⟩
        intro p' hp' hp'ne hlv'
        cases hp'
        exact includes_iff_mem.mp hinc
      · simp only [Bool.not_eq_true] at hinc
        rw [hinc]
        simp only [Bool.false_eq_true, if_false]
        obtain ⟨tid, w', orc', heq, h1, h2, h3, h4, h5, h6, h7, c, hc, hcn, hcl, hcp⟩ :=
          createTag_success w orc name level parentIds hwf hfresh hnz
        exact ⟨tid, w', orc', heq, h1, h2, h3, h4, h5, h6, h7,
          ⟨c, hc, hcn, hcl, fun p' hp' => hcp p' (hp.trans hp')⟩⟩
    · rw [if_neg hlv]
      refine ⟨t.id, w, orc, rfl, hwf.1 t htmem, hsync, rfl, hwf, hfresh,
        by omega, ⟨[], by simp⟩,
        ⟨t, getClassification_of_mem hwf htmem, htname, htlevel, ?_⟩⟩
      intro p' hp' hp'ne hlv'
      exact absurd hlv' hlv

/-- The level-3 loop under a benign oracle: every suggested tag resolves
or is created, in order, parented under the resolved level-2 ID. -/
theorem processLevel3_success (finalL2Id : String) :
    ∀ (sts : List ClassificationStatus) (w : World) (orc : Oracle),
      w.storeCache = w.classifications → WfStore w.classifications →
      OracleFresh w.classifications orc → finalL2Id ≠ "" →
      sts.length ≤ orc.length →
      ∃ (ids : List String) (w' : World) (orc' : Oracle),
        processLevel3 finalL2Id sts w orc = (some ids, w', orc') ∧
        ids.length = sts.length ∧
        w'.storeCache = w'.classifications ∧
        w'.bookmarks = w.bookmarks ∧
        WfStore w'.classifications ∧
        OracleFresh w'.classifications orc' ∧
        orc.length ≤ orc'.length + sts.length ∧
        (∃ added, w'.classifications = w.classifications ++ added) ∧
        (∀ (j : Nat) (st3 : ClassificationStatus) (id3 : String),
          sts[j]? = some st3 → ids[j]? = some id3 →
          ∃ c3, getClassification w'.classifications id3 = some c3 ∧
            c3.name = st3.name ∧ c3.level = 3 ∧ finalL2Id ∈ c3.parentIds) := by
  intro sts
  induction sts with
  | nil =>
    intro w orc hsync hwf hfresh hne hlen
    exact ⟨[], w, orc, rfl, rfl, hsync, rfl, hwf, hfresh, by omega,
      ⟨[], by simp⟩, fun j st3 id3 h _ => by simp at h⟩
  | cons st rest ih =>
    intro w orc hsync hwf hfresh hne hlen
    have hnz : orc ≠ [] := by
      intro he
      subst he
      simp at hlen
    obtain ⟨tid, w1, orc1, heq, htne, hsync1, hbm1, hwf1, hfresh1, hlen1,
        ⟨add1, hadd1⟩, c, hc, hcn, hcl, hcp⟩ :=
      findOrCreateTag_success w orc st.name 3 [finalL2Id] hsync hwf hfresh hnz
        (fun _ => ⟨finalL2Id, rfl, hne⟩)
    have hparent : finalL2Id ∈ c.parentIds := hcp finalL2Id rfl hne (by omega)
    have hlen2 : rest.length ≤ orc1.length := by
      simp only [List.length_cons] at hlen
      omega
    obtain ⟨ids, w', orc', heq2, hlen3, hsync2, hbm2, hwf2, hfresh2, hlen4,
        ⟨add2, hadd2⟩, hfacts⟩ := ih w1 orc1 hsync1 hwf1 hfresh1 hne hlen2
    refine ⟨tid :: ids, w', orc', ?_, by simp [hlen3], hsync2,
      hbm2.trans hbm1, hwf2, hfresh2, ?_, ?_, ?_⟩
    · unfold processLevel3
      simp only [heq]
      rw [if_neg htne]
      simp only [heq2]
    · simp only [List.length_cons]
      omega
    · exact ⟨add1 ++ add2, by rw [hadd2, hadd1, List.append_assoc]⟩
    · intro j st3 id3 hj hid
      cases j with
      | zero =>
        simp only [List.getElem?_cons_zero, Option.some.injEq] at hj hid
        subst hj
        subst hid
        refine ⟨c, ?_, hcn, hcl, hparent⟩
        rw [hadd2]
        exact getClassification_append hc
      | succ n =>
        simp only [List.getElem?_cons_succ] at hj hid
        exact hfacts n st3 id3 hj hid

/-- The final bookmark update under a benign oracle and a present
bookmark: it succeeds and rewrites exactly the claimed fields of the first
matching document. -/
theorem finishUpdate_ok (w : World) (orc : Oracle) (bookmarkId finalL1Id : String)
    (finalL2Id : Option String) (finalL3Ids : List String)
    (hok : ∃ o rest, orc = o :: rest ∧ o.isSome = true)
    (hany : w.bookmarks.any (fun b => b.id == bookmarkId) = true) :
    ∃ (w' : World) (orc' : Oracle),
      finishUpdate w orc bookmarkId finalL1Id finalL2Id finalL3Ids =
        (RunResult.ok, w', orc') ∧
      w'.classifications = w.classifications ∧
      w'.storeCache = w.storeCache ∧
      (∃ (i : Nat) (b : Bookmark), w.bookmarks[i]? = some b ∧
        (b.id == bookmarkId) = true ∧
        w'.bookmarks[i]? = some
          { b with
            status := "verified",
            level1Id := some finalL1Id,
            level2Ids := (match finalL2Id with | some x => [x] | none => []),
            level3Ids := finalL3Ids,
            llmClassification := none,
            suggestedNewTags := none }) := by
  obtain ⟨o, rest, horc, ho⟩ := hok
  subst horc
  obtain ⟨u, hu⟩ := Option.isSome_iff_exists.mp ho
  subst hu
  refine ⟨{ w with
      bookmarks :=
        updateFirst (fun b => b.id == bookmarkId)
          (setApproved finalL1Id
            (match finalL2Id with | some x => [x] | none => []) finalL3Ids)
          w.bookmarks },
    rest, ?_, rfl, rfl, ?_⟩
  · unfold finishUpdate updateBookmarkDoc takeOutcome
    simp only [hany, if_true, reduceIte]
  · obtain ⟨i, b, h1, h2, h3⟩ := updateFirst_hit
      (fun b => b.id == bookmarkId)
      (setApproved finalL1Id
        (match finalL2Id with | some x => [x] | none => []) finalL3Ids)
      w.bookmarks hany
    exact ⟨i, b, h1, h2, h3⟩

/-- A computed status that is valid and carries no level-2 entry carries no
level-3 entries either. -/
theorem status_noL2_noL3 (s : Store) (llm? : Option ParsedLlmClassification)
    (hv : (llmClassificationStatus s true llm?).isValidOverallHierarchy = true)
    (h2 : (llmClassificationStatus s true llm?).level2 = none) :
    (llmClassificationStatus s true llm?).level3 = [] := by
  cases llm? with
  | none => rfl
  | some llm =>
    by_cases h1 : optTruthy llm.level1TagName = true
    · by_cases hl2 : optTruthy llm.level2TagName = true
      · exfalso
        simp [llmClassificationStatus, h1, hl2] at h2
      · by_cases hne : llm.level3TagNames.isEmpty = true
        · simp [llmClassificationStatus, h1, hl2, assembleL3, hne]
        · exfalso
          simp [llmClassificationStatus, h1, hl2, assembleL3, hne] at hv
    · simp only [Bool.not_eq_true] at h1
      simp [llmClassificationStatus, h1]

/-- Claim C1: approving a pending bookmark with a hierarchy-valid computed
status, under a synced well-formed store and a benign oracle, resolves or
creates the suggested tags level-by-level in order — the level-2 tag
parented under the resolved level-1 ID, each level-3 tag (in suggestion
order) parented under the resolved level-2 ID — and then updates the
bookmark document: status verified, level1Id the resolved level-1 ID,
level2Ids the singleton resolved level-2 ID (or empty with no level-2
suggestion, in which case no level-3 tag was suggested either), level3Ids
the resolved level-3 IDs in order, and llmClassification cleared. -/
theorem handleApprove_happy (w : World) (orc : Oracle) (bm : Bookmark)
    (st : LlmClassificationStatus) (st1 : ClassificationStatus)
    (hst : st = llmClassificationStatus w.storeCache true bm.parsedLlmClassification)
    (hvalid : st.isValidOverallHierarchy = true)
    (hl1 : st.level1 = some st1)
    (hid : bm.id ≠ "")
    (hany : w.bookmarks.any (fun b => b.id == bm.id) = true)
    (hsync : w.storeCache = w.classifications)
    (hwf : WfStore w.classifications)
    (hfresh : OracleFresh w.classifications orc)
    (hlen : st.level3.length + 3 ≤ orc.length) :
    ∃ (finalL1Id : String) (finalL2Id : Option String)
      (finalL3Ids : List String) (w' : World) (orc' : Oracle),
      handleApproveBookmark w orc bm st = (RunResult.ok, w', orc') ∧
      (∃ (i : Nat) (b : Bookmark), w.bookmarks[i]? = some b ∧ b.id = bm.id ∧
        w'.bookmarks[i]? = some
          { b with
            status := "verified",
            level1Id := some finalL1Id,
            level2Ids := (match finalL2Id with | some x => [x] | none => []),
            level3Ids := finalL3Ids,
            llmClassification := none,
            suggestedNewTags := none }) ∧
      (∃ c1, getClassification w'.classifications finalL1Id = some c1 ∧
        c1.name = st1.name ∧ c1.level = 1) ∧
      (st.level2 = none → finalL2Id = none ∧ finalL3Ids = [] ∧ st.level3 = []) ∧
      (∀ st2, st.level2 = some st2 →
        ∃ u, finalL2Id = some u ∧
          (∃ c2, getClassification w'.classifications u = some c2 ∧
            c2.name = st2.name ∧ c2.level = 2 ∧ finalL1Id ∈ c2.parentIds) ∧
          finalL3Ids.length = st.level3.length ∧
          (∀ (j : Nat) (st3 : ClassificationStatus) (id3 : String),
            st.level3[j]? = some st3 → finalL3Ids[j]? = some id3 →
            ∃ c3, getClassification w'.classifications id3 = some c3 ∧
              c3.name = st3.name ∧ c3.level = 3 ∧ u ∈ c3.parentIds)) := by
  unfold handleApproveBookmark
  rw [if_neg hid, if_neg (by simp [hvalid])]
  simp only [hl1]
  have h1nz : orc ≠ [] := by
    intro he
    subst he
    simp at hlen
  obtain ⟨l1id, w1, orc1, heq1, h1ne, hsync1, hbm1, hwf1, hfresh1, hlen1,
      ⟨a1, ha1⟩, c1, hc1, hc1n, hc1l, -⟩ :=
    findOrCreateTag_success w orc st1.name 1 [] hsync hwf hfresh h1nz
      (fun h => absurd h (by omega))
  simp only [heq1]
  rw [if_neg h1ne]
  cases hST2 : st.level2 with
  | none =>
    have h1len : 2 ≤ orc1.length := by omega
    have hok1 : ∃ o rest, orc1 = o :: rest ∧ o.isSome = true := by
      cases horc1 : orc1 with
      | nil => subst horc1; simp at h1len
      | cons o r =>
        obtain ⟨i, hi, -, -⟩ := hfresh1.1 o (horc1 ▸ List.mem_cons_self _ _)
        exact ⟨o, r, rfl, by rw [hi]; rfl⟩
    have hany1 : w1.bookmarks.any (fun b => b.id == bm.id) = true := by
      rw [hbm1]; exact hany
    obtain ⟨w', orc', hequ, hcls, hcache, i, b, hbi, hbid, hbup⟩ :=
      finishUpdate_ok w1 orc1 bm.id l1id none [] hok1 hany1
    refine ⟨l1id, none, [], w', orc', hequ, ?_, ?_, ?_, ?_⟩
    · exact ⟨i, b, by rw [← hbm1]; exact hbi, by simpa using hbid, hbup⟩
    · refine ⟨c1, ?_, hc1n, hc1l⟩
      rw [hcls]
      exact hc1
    · intro _
      refine ⟨rfl, rfl, ?_⟩
      have := status_noL2_noL3 w.storeCache bm.parsedLlmClassification
        (by rw [← hst]; exact hvalid) (by rw [← hst]; exact hST2)
      rw [← hst] at this
      exact this
    · intro st2 h
      exact Option.noConfusion h
  | some st2 =>
    have h1len : orc1 ≠ [] := by
      refine List.ne_nil_of_length_pos ?_
      omega
    obtain ⟨l2id, w2, orc2, heq2, h2ne, hsync2, hbm2, hwf2, hfresh2, hlen2,
        ⟨a2, ha2⟩, c2, hc2, hc2n, hc2l, hc2p⟩ :=
      findOrCreateTag_success w1 orc1 st2.name 2 [l1id] hsync1 hwf1 hfresh1
        h1len (fun _ => ⟨l1id, rfl, h1ne⟩)
    have hc2parent : l1id ∈ c2.parentIds := hc2p l1id rfl h1ne (by omega)
    simp only [heq2]
    rw [if_neg h2ne]
    have h3len : st.level3.length ≤ orc2.length := by omega
    obtain ⟨ids, w3, orc3, heq3, hlen3, hsync3, hbm3, hwf3, hfresh3, hlen4,
        ⟨a3, ha3⟩, hfacts⟩ :=
      processLevel3_success l2id st.level3 w2 orc2 hsync2 hwf2 hfresh2 h2ne h3len
    simp only [heq3]
    have h4len : 1 ≤ orc3.length := by omega
    have hok3 : ∃ o rest, orc3 = o :: rest ∧ o.isSome = true := by
      cases horc3 : orc3 with
      | nil => subst horc3; simp at h4len
      | cons o r =>
        obtain ⟨i, hi, -, -⟩ := hfresh3.1 o (horc3 ▸ List.mem_cons_self _ _)
        exact ⟨o, r, rfl, by rw [hi]; rfl⟩
    have hany3 : w3.bookmarks.any (fun b => b.id == bm.id) = true := by
      rw [hbm3, hbm2, hbm1]; exact hany
    obtain ⟨w', orc', hequ, hcls, hcache, i, b, hbi, hbid, hbup⟩ :=
      finishUpdate_ok w3 orc3 bm.id l1id (some l2id) ids hok3 hany3
    refine ⟨l1id, some l2id, ids, w', orc', hequ, ?_, ?_, ?_, ?_⟩
    · refine ⟨i, b, ?_, by simpa using hbid, hbup⟩
      rw [← hbm1, ← hbm2, ← hbm3]
      exact hbi
    · refine ⟨c1, ?_, hc1n, hc1l⟩
      rw [hcls, ha3, ha2]
      exact getClassification_append (getClassification_append hc1)
    · intro h
      exact Option.noConfusion h
    · intro st2' h
      injection h with h'
      subst h'
      refine ⟨l2id, rfl, ?_, hlen3, ?_⟩
      · refine ⟨c2, ?_, hc2n, hc2l, hc2parent⟩
        rw [hcls, ha3]
        exact getClassification_append hc2
      · intro j st3 id3 hj hid3
        obtain ⟨c3, hc3, hc3n, hc3l, hc3p⟩ := hfacts j st3 id3 hj hid3
        refine ⟨c3, ?_, hc3n, hc3l, hc3p⟩
        rw [hcls]
        exact hc3

/-- Witness for claim C1: the concrete approval completes. -/
theorem handleApprove_happy_witness :
    (handleApproveBookmark cexWorld cexOracle cexBookmark cexStatus).1 =
      RunResult.ok := by
  have hfr : OracleFresh cexWorld.classifications cexOracle := by
    constructor
    · intro o ho
      simp only [cexOracle, List.mem_cons, List.not_mem_nil, or_false] at ho
      rcases ho with rfl | rfl | rfl | rfl
      · exact ⟨"i1", rfl, by decide, fun c hc => by simp [cexWorld] at hc⟩
      · exact ⟨"i2", rfl, by decide, fun c hc => by simp [cexWorld] at hc⟩
      · exact ⟨"i3", rfl, by decide, fun c hc => by simp [cexWorld] at hc⟩
      · exact ⟨"i4", rfl, by decide, fun c hc => by simp [cexWorld] at hc⟩
    · decide
  obtain ⟨l1, l2, l3s, w', orc', heq, -⟩ :=
    handleApprove_happy cexWorld cexOracle cexBookmark cexStatus
      ⟨"A", TagState.new, none, none, 1, true⟩ rfl (by decide) (by decide)
      (by decide) (by decide) rfl
      ⟨fun c hc => by simp [cexWorld] at hc, by simp [cexWorld]⟩ hfr (by decide)
  rw [heq]

/-! ### What remains after a failed approval -/

theorem createTag_frame (w : World) (orc : Oracle) (name : String)
    (level : Nat) (parentIds : List String) :
    (createTag w orc name level parentIds).2.1.bookmarks = w.bookmarks ∧
      ∃ added, (createTag w orc name level parentIds).2.1.classifications =
        w.classifications ++ added := by
  unfold createTag createClassificationDoc takeOutcome fetchClassifications
  cases orc with
  | nil => exact ⟨rfl, ⟨[], by simp⟩⟩
  | cons o rest =>
    cases o with
    | none => exact ⟨rfl, ⟨[], by simp⟩⟩
    | some i => exact ⟨rfl, ⟨_, rfl⟩⟩

theorem findOrCreateTag_frame (w : World) (orc : Oracle) (name : String)
    (level : Nat) (parentIds : List String) :
    (findOrCreateTag w orc name level parentIds).2.1.bookmarks = w.bookmarks ∧
      ∃ added, (findOrCreateTag w orc name level parentIds).2.1.classifications =
        w.classifications ++ added := by
  unfold findOrCreateTag
  cases hfind : findClassificationByNameAndLevel w.storeCache name level with
  | none =>
    simp only
    exact createTag_frame w orc name level parentIds
  | some t =>
    simp only
    by_cases hlv : 1 < level
    · rw [if_pos hlv]
      cases parentIds.head? with
      | none => exact ⟨rfl, ⟨[], by simp⟩⟩
      | some p =>
        simp only
        by_cases hp : p = ""
        · rw [if_pos hp]
          exact ⟨rfl, ⟨[], by simp⟩⟩
        · rw [if_neg hp]
          by_cases hinc : includes t.parentIds p = true
          · rw [if_pos hinc]
            exact ⟨rfl, ⟨[], by simp⟩⟩
          · simp only [Bool.not_eq_true] at hinc
            rw [hinc]
            simp only [Bool.false_eq_true, if_false]
            exact createTag_frame w orc name level parentIds
    · rw [if_neg hlv]
      exact ⟨rfl, ⟨[], by simp⟩⟩

theorem frame_trans {w w1 w2 : World}
    (h1 : w1.bookmarks = w.bookmarks ∧
      ∃ a, w1.classifications = w.classifications ++ a)
    (h2 : w2.bookmarks = w1.bookmarks ∧
      ∃ a, w2.classifications = w1.classifications ++ a) :
    w2.bookmarks = w.bookmarks ∧
      ∃ a, w2.classifications = w.classifications ++ a := by
  obtain ⟨hb1, a1, hc1⟩ := h1
  obtain ⟨hb2, a2, hc2⟩ := h2
  exact ⟨hb2.trans hb1, ⟨a1 ++ a2, by rw [hc2, hc1, List.append_assoc]⟩⟩

theorem processLevel3_frame (finalL2Id : String) :
    ∀ (sts : List ClassificationStatus) (w : World) (orc : Oracle),
      (processLevel3 finalL2Id sts w orc).2.1.bookmarks = w.bookmarks ∧
        ∃ added, (processLevel3 finalL2Id sts w orc).2.1.classifications =
          w.classifications ++ added := by
  intro sts
  induction sts with
  | nil => intro w orc; exact ⟨rfl, ⟨[], by simp [processLevel3]⟩⟩
  | cons st rest ih =>
    intro w orc
    have hfoc := findOrCreateTag_frame w orc st.name 3 [finalL2Id]
    unfold processLevel3
    cases hres : findOrCreateTag w orc st.name 3 [finalL2Id] with
    | mk r rest' =>
      obtain ⟨w1, orc1⟩ := rest'
      rw [hres] at hfoc
      cases r with
      | err => exact hfoc
      | ok tagId =>
        cases tagId with
        | none => exact hfoc
        | some l3Id =>
          simp only
          by_cases hz : l3Id = ""
          · rw [if_pos hz]
            exact hfoc
          · rw [if_neg hz]
            have hrec := ih w1 orc1
            cases hres2 : processLevel3 finalL2Id rest w1 orc1 with
            | mk r2 rest2 =>
              obtain ⟨w2, orc2⟩ := rest2
              rw [hres2] at hrec
              cases r2 with
              | none => exact frame_trans hfoc hrec
              | some ids => exact frame_trans hfoc hrec

theorem finishUpdate_err {w : World} {orc : Oracle} {bookmarkId finalL1Id : String}
    {finalL2Id : Option String} {finalL3Ids : List String} {w' : World}
    {orc' : Oracle}
    (h : finishUpdate w orc bookmarkId finalL1Id finalL2Id finalL3Ids =
      (RunResult.err, w', orc')) : w' = w := by
  unfold finishUpdate updateBookmarkDoc takeOutcome at h
  cases orc with
  | nil =>
    simp only [Prod.mk.injEq] at h
    exact h.2.1.symm
  | cons o rest =>
    cases o with
    | none =>
      simp only [Prod.mk.injEq] at h
      exact h.2.1.symm
    | some u =>
      by_cases hany : w.bookmarks.any (fun b => b.id == bookmarkId) = true
      · simp only [hany, if_true, reduceIte, Prod.mk.injEq] at h
        cases h.1
      · simp only [Bool.not_eq_true] at hany
        simp only [hany, Bool.false_eq_true, if_false, Prod.mk.injEq] at h
        exact h.2.1.symm

/-- Claim C2 fails as stated: approving with a fresh level-1 and level-2
suggestion under an oracle whose second create fails leaves the newly
created level-1 document in the taxonomy — the failure is not rolled
back. -/
theorem approval_not_atomic :
    handleApproveBookmark ⟨[], [], [cexBookmark]⟩ [some "a1", none] cexBookmark
        ⟨some ⟨"A", TagState.new, none, none, 1, true⟩,
          some ⟨"B", TagState.new, none, none, 2, true⟩, [], true, true⟩ =
      (RunResult.err,
        ⟨[⟨"a1", "A", 1, []⟩], [⟨"a1", "A", 1, []⟩], [cexBookmark]⟩, []) := by
  rfl

/-- Claim C2, amended: when any step of `handleApproveBookmark` fails, the
bookmark document is left exactly as it was, but classification documents
created before the failure remain — the taxonomy has only grown. -/
theorem approval_error_partial (w : World) (orc : Oracle) (bm : Bookmark)
    (st : LlmClassificationStatus) (w' : World) (orc' : Oracle)
    (h : handleApproveBookmark w orc bm st = (RunResult.err, w', orc')) :
    w'.bookmarks = w.bookmarks ∧
      ∃ added, w'.classifications = w.classifications ++ added := by
  unfold handleApproveBookmark at h
  split at h
  · simp at h
  · split at h
    · simp at h
    · split at h
      · simp at h
      · rename_i st1 _
        split at h
        all_goals rename_i heq1
        · -- err from the level-1 call
          have hfoc := findOrCreateTag_frame w orc st1.name 1 []
          rw [heq1] at hfoc
          simp only [Prod.mk.injEq] at h
          obtain ⟨-, hw, -⟩ := h
          subst hw
          simpa using hfoc
        · have hfoc := findOrCreateTag_frame w orc st1.name 1 []
          rw [heq1] at hfoc
          simp only [Prod.mk.injEq] at h
          obtain ⟨-, hw, -⟩ := h
          subst hw
          simpa using hfoc
        · rename_i l1id w1 orc1
          have hfoc := findOrCreateTag_frame w orc st1.name 1 []
          rw [heq1] at hfoc
          simp only at hfoc
          split at h
          · simp only [Prod.mk.injEq] at h
            obtain ⟨-, hw, -⟩ := h
            subst hw
            exact hfoc
          · split at h
            · -- no level-2: the final update failed
              have hw' : w' = w1 := finishUpdate_err h
              rw [hw']
              exact hfoc
            · rename_i st2 hst2
              split at h
              all_goals rename_i heq2
              · have hfoc2 := findOrCreateTag_frame w1 orc1 st2.name 2 [l1id]
                rw [heq2] at hfoc2
                simp only at hfoc2
                simp only [Prod.mk.injEq] at h
                obtain ⟨-, hw, -⟩ := h
                subst hw
                exact frame_trans hfoc hfoc2
              · have hfoc2 := findOrCreateTag_frame w1 orc1 st2.name 2 [l1id]
                rw [heq2] at hfoc2
                simp only at hfoc2
                simp only [Prod.mk.injEq] at h
                obtain ⟨-, hw, -⟩ := h
                subst hw
                exact frame_trans hfoc hfoc2
              · rename_i l2id w2 orc2
                have hfoc2 := findOrCreateTag_frame w1 orc1 st2.name 2 [l1id]
                rw [heq2] at hfoc2
                simp only at hfoc2
                split at h
                · simp only [Prod.mk.injEq] at h
                  obtain ⟨-, hw, -⟩ := h
                  subst hw
                  exact frame_trans hfoc hfoc2
                · split at h
                  all_goals rename_i heq3
                  · rename_i w3 orc3
                    have hp3 := processLevel3_frame l2id st.level3 w2 orc2
                    rw [heq3] at hp3
                    simp only at hp3
                    simp only [Prod.mk.injEq] at h
                    obtain ⟨-, hw, -⟩ := h
                    subst hw
                    exact frame_trans (frame_trans hfoc hfoc2) hp3
                  · rename_i ids w3 orc3
                    have hp3 := processLevel3_frame l2id st.level3 w2 orc2
                    rw [heq3] at hp3
                    simp only at hp3
                    have hw' : w' = w3 := finishUpdate_err h
                    rw [hw']
                    exact frame_trans (frame_trans hfoc hfoc2) hp3

/-- Witness for the amended claim C2, at the concrete failing run of the
counterexample: the bookmark list survives and the taxonomy only grew. -/
theorem approval_error_partial_witness :
    (⟨[⟨"a1", "A", 1, []⟩], [⟨"a1", "A", 1, []⟩], [cexBookmark]⟩ :
        World).bookmarks = (⟨[], [], [cexBookmark]⟩ : World).bookmarks ∧
      ∃ added, (⟨[⟨"a1", "A", 1, []⟩], [⟨"a1", "A", 1, []⟩], [cexBookmark]⟩ :
        World).classifications =
          (⟨[], [], [cexBookmark]⟩ : World).classifications ++ added :=
  approval_error_partial ⟨[], [], [cexBookmark]⟩ [some "a1", none] cexBookmark
    ⟨some ⟨"A", TagState.new, none, none, 1, true⟩,
      some ⟨"B", TagState.new, none, none, 2, true⟩, [], true, true⟩
    _ _ rfl

/-- Claim C7 fails as stated: with an empty name cache, a bookmark whose
level-1 ID contains the search text is kept by the code (the ID falls back
into the compared names), while the claim's predicate rejects it. -/
theorem filteredBookmarks_counterexample :
    filteredBookmarks []
        (some [⟨"1", "t", "d", "u", some "tech1", none, [], false⟩])
        false none none "tech" =
      [⟨"1", "t", "d", "u", some "tech1", none, [], false⟩] ∧
    claimPasses [] false none none "tech"
        ⟨"1", "t", "d", "u", some "tech1", none, [], false⟩ = false := by
  exact ⟨by decide, by decide⟩

theorem filter_guardB {α : Type} (c : Bool) (p : α → Bool) (l : List α) :
    (if c then l.filter p else l) = l.filter (fun a => !c || p a) := by
  cases c <;> simp

theorem filter_guardNe {α : Type} (s : String) (p : α → Bool) (l : List α) :
    (if s ≠ "" then l.filter p else l) =
      l.filter (fun a => decide (s = "") || p a) := by
  by_cases h : s = "" <;> simp [h]

/-- Claim C7, amended: a bookmark appears in `filteredBookmarks` exactly
when it passes every active filter, where the free-text clause compares
the search text against the title, the description and the name
resolutions of the bookmark's classification IDs (the cached name for a
known ID, the raw ID otherwise); the fetched order is preserved and the
result is empty when no bookmarks are loaded. -/
theorem filteredBookmarks_spec (m : NameStore) (showFav : Bool)
    (sel1 sel2 : Option String) (q : String) :
    filteredBookmarks m none showFav sel1 sel2 q = [] ∧
    ∀ bms : List GalleryBookmark,
      filteredBookmarks m (some bms) showFav sel1 sel2 q =
        bms.filter (amendedPasses m showFav sel1 sel2 q) := by
  refine ⟨rfl, ?_⟩
  intro bms
  unfold filteredBookmarks
  simp only
  rw [filter_guardB showFav _ bms,
    filter_guardB (optTruthy sel1) _ _,
    filter_guardB (optTruthy sel2) _ _,
    filter_guardNe (strLower q) _ _,
    List.filter_filter, List.filter_filter, List.filter_filter]
  refine List.filter_congr ?_
  intro b _
  unfold amendedPasses
  cases h1 : (!showFav || b.isFavorite) <;>
    cases h2 : (!(optTruthy sel1) || b.level1Id == sel1) <;>
      cases h3 : (!(optTruthy sel2) || b.level2Id == sel2) <;>
        simp [h1, h2, h3]

theorem find?_updateFirst {α : Type} (p : α → Bool) (f : α → α)
    (hpf : ∀ a, p a = true → p (f a) = true) :
    ∀ (l : List α) (b : α), l.find? p = some b →
      (updateFirst p f l).find? p = some (f b) := by
  intro l
  induction l with
  | nil => intro b h; simp [List.find?] at h
  | cons a t ih =>
    intro b h
    simp only [List.find?] at h
    cases hp : p a with
    | true =>
      rw [hp] at h
      simp only [Option.some.injEq] at h
      subst h
      simp only [updateFirst, hp, if_true, reduceIte]
      simp only [List.find?, hpf a hp]
    | false =>
      rw [hp] at h
      simp only [updateFirst, hp, Bool.false_eq_true, if_false]
      simp only [List.find?, hp]
      exact ih b h

theorem updateFirst_rollback :
    ∀ (l : List GalleryBookmark) (b : GalleryBookmark) (bookmarkId : String),
      l.find? (fun x => x.id == bookmarkId) = some b →
      updateFirst (fun x => x.id == bookmarkId)
          (fun x => { x with isFavorite := b.isFavorite })
          (updateFirst (fun x => x.id == bookmarkId)
            (fun x => { x with isFavorite := !b.isFavorite }) l) = l := by
  intro l
  induction l with
  | nil => intro b bid h; simp [List.find?] at h
  | cons a t ih =>
    intro b bid h
    simp only [List.find?] at h
    cases hp : (a.id == bid) with
    | true =>
      rw [hp] at h
      simp only [Option.some.injEq] at h
      subst h
      simp only [updateFirst, hp, if_true, reduceIte]
    | false =>
      rw [hp] at h
      simp only [updateFirst, hp, Bool.false_eq_true, if_false]
      rw [ih b bid h]

/-- Claim C10: the displayed favorite flag is handled atomically — when
the backend update succeeds the displayed bookmark carries the negated
flag (and is otherwise unchanged), and when it fails the whole list is
restored to exactly its original state. -/
theorem handleToggleFavorite_atomic (l : List GalleryBookmark)
    (bookmarkId : String) (b : GalleryBookmark)
    (hfind : l.find? (fun x => x.id == bookmarkId) = some b) :
    ((handleToggleFavorite l true bookmarkId).find?
        (fun x => x.id == bookmarkId) =
      some { b with isFavorite := !b.isFavorite }) ∧
    handleToggleFavorite l false bookmarkId = l := by
  constructor
  · unfold handleToggleFavorite
    rw [hfind]
    simp only [if_true, reduceIte]
    exact find?_updateFirst (fun x => x.id == bookmarkId)
      (fun x => { x with isFavorite := !b.isFavorite })
      (fun a ha => ha) l b hfind
  · unfold handleToggleFavorite
    rw [hfind]
    simp only [Bool.false_eq_true, if_false]
    exact updateFirst_rollback l b bookmarkId hfind

/-- Witness for claim C10 at a concrete two-bookmark list. -/
theorem handleToggleFavorite_atomic_witness :
    (([⟨"g1", "t1", "d1", "u1", none, none, [], false⟩,
       ⟨"g2", "t2", "d2", "u2", none, none, [], true⟩] :
        List GalleryBookmark).find? (fun x => x.id == "g2") =
      some ⟨"g2", "t2", "d2", "u2", none, none, [], true⟩) ∧
    ((handleToggleFavorite
          [⟨"g1", "t1", "d1", "u1", none, none, [], false⟩,
           ⟨"g2", "t2", "d2", "u2", none, none, [], true⟩] true "g2").find?
        (fun x => x.id == "g2") =
      some ⟨"g2", "t2", "d2", "u2", none, none, [], false⟩) ∧
    handleToggleFavorite
        [⟨"g1", "t1", "d1", "u1", none, none, [], false⟩,
         ⟨"g2", "t2", "d2", "u2", none, none, [], true⟩] false "g2" =
      [⟨"g1", "t1", "d1", "u1", none, none, [], false⟩,
       ⟨"g2", "t2", "d2", "u2", none, none, [], true⟩] := by
  refine ⟨by decide, ?_⟩
  have h := handleToggleFavorite_atomic
    [⟨"g1", "t1", "d1", "u1", none, none, [], false⟩,
     ⟨"g2", "t2", "d2", "u2", none, none, [], true⟩] "g2"
    ⟨"g2", "t2", "d2", "u2", none, none, [], true⟩ (by decide)
  exact h

/-- Witness for claim C5 at a concrete store and suggestion:
an existing level-2 tag not parented under the matched level-1 makes the
status invalid, matching condition (a). -/
theorem llmStatus_flags_iff_witness :
    optTruthy (some "A") = true ∧
      (∀ c ∈ ([⟨"a1", "A", 1, []⟩, ⟨"b2", "B", 2, ["zz"]⟩] : Store), c.id ≠ "") ∧
      ((llmClassificationStatus [⟨"a1", "A", 1, []⟩, ⟨"b2", "B", 2, ["zz"]⟩] true
          (some ⟨some "A", some "B", []⟩)).isValidOverallHierarchy = false ↔
        (condA [⟨"a1", "A", 1, []⟩, ⟨"b2", "B", 2, ["zz"]⟩] ⟨some "A", some "B", []⟩ ||
          condB [⟨"a1", "A", 1, []⟩, ⟨"b2", "B", 2, ["zz"]⟩] ⟨some "A", some "B", []⟩ ||
          condC [⟨"a1", "A", 1, []⟩, ⟨"b2", "B", 2, ["zz"]⟩] ⟨some "A", some "B", []⟩) = true) :=
  ⟨by decide, by decide,
    llmStatus_flags_iff _ _ (by decide) (by decide)⟩

end BG






